import Mathlib

/-!
Verification of the harimu tick engine (`src/modules/vm.rs`).

Modelling conventions:
* `u32`/`u64` quantities are `Nat` with explicit saturation (`satAdd32`,
  `satAdd64`) and truncation (`cast32`) exactly where the source saturates or
  casts; every subtraction in the source is either guarded or saturating, which
  matches `Nat` subtraction.
* `i32` coordinates are `Int`; `i32` overflow panics in the source and is
  outside the modelled behaviour.
* Rust `HashMap`s keyed by id / position are association lists; lookups go
  through `find?`, so the embedding agrees with the map semantics whenever keys
  are unique (which the occupancy/agent invariants below establish).
* The `mutual_pairs : HashSet<(AgentId, AgentId)>` of `Vm::step` is embedded by
  its membership predicate `mutualConsent`: the normalised pair of `a` and `b`
  is in the set iff each declares the other in the final intents map.
-/

namespace Harimu

abbrev AgentId := Nat
abbrev Qi := Nat

def u32Max : Nat := 4294967295
def u64Max : Nat := 18446744073709551615

/-- `u32::saturating_add`. -/
def satAdd32 (a b : Nat) : Nat := min (a + b) u32Max

/-- `u64::saturating_add`. -/
def satAdd64 (a b : Nat) : Nat := min (a + b) u64Max

/-- `u64 as u32` truncation. -/
def cast32 (n : Nat) : Nat := n % 4294967296

def ZONE_SIZE : Int := 16
def SCAN_RANGE : Int := 8
def HARVEST_RANGE : Int := 1
def HARVEST_PER_ACTION : Nat := 3
def DEFAULT_MAX_AGENT_AGE : Nat := 112
def MAX_MOVE_RADIUS : Int := 3

structure Position where
  x : Int
  y : Int
  z : Int
deriving DecidableEq, Repr

structure Zone where
  x : Int
  y : Int
  z : Int
deriving DecidableEq, Repr

def Position.origin : Position := ⟨0, 0, 0⟩

def Position.offset (p : Position) (dx dy dz : Int) : Position :=
  ⟨p.x + dx, p.y + dy, p.z + dz⟩

/-- `div_euclid` on `i32` is Euclidean division, i.e. `Int.ediv`. -/
def Position.zone (p : Position) : Zone :=
  ⟨p.x.ediv ZONE_SIZE, p.y.ediv ZONE_SIZE, p.z.ediv ZONE_SIZE⟩

def Position.withinRange (p other : Position) (range : Int) : Bool :=
  decide (|p.x - other.x| ≤ range) && decide (|p.y - other.y| ≤ range) &&
    decide (|p.z - other.z| ≤ range)

inductive OreKind
  | qi
  | transistor
deriving DecidableEq, Repr

inductive StructureKind
  | basic
  | programmable
  | qi
deriving DecidableEq, Repr

inductive Action
  | scan
  | move (dx dy dz : Int)
  | reproduce (partner : AgentId)
  | buildStructure (kind : StructureKind)
  | harvestOre (ore : OreKind) (sourceId : Nat)
  | idle
deriving DecidableEq, Repr

def Action.qiCost : Action → Nat
  | .scan | .idle => 0
  | .move _ _ _ => 0
  | .reproduce _ => 0
  | .buildStructure _ => 1
  | .harvestOre _ _ => 1

def Action.label : Action → String
  | .scan => "scan"
  | .move _ _ _ => "move"
  | .reproduce _ => "reproduce"
  | .buildStructure _ => "build_structure"
  | .harvestOre _ _ => "harvest"
  | .idle => "idle"

structure QiSource where
  id : Nat
  ore : OreKind
  position : Position
  capacity : Nat
  current : Nat
  rechargePerTick : Nat
deriving DecidableEq, Repr

structure QiSourceSnapshot where
  id : Nat
  ore : OreKind
  position : Position
  available : Nat
  capacity : Nat
deriving DecidableEq, Repr

structure StructureSnapshot where
  id : Nat
  kind : StructureKind
  position : Position
deriving DecidableEq, Repr

structure Structure where
  id : Nat
  kind : StructureKind
  position : Position
  zone : Zone
  owner : AgentId
deriving DecidableEq, Repr

inductive DeathReason
  | age
  | hazard
  | corruption
deriving DecidableEq, Repr

inductive Event
  | tickStarted (tick : Nat)
  | tickCompleted (tick : Nat)
  | agentSpawned (agentId : AgentId) (name : String) (qi : Nat) (position : Position)
  | qiSpent (agentId : AgentId) (amount : Nat) (action : String)
  | oreGained (agentId : AgentId) (ore : OreKind) (amount : Nat) (source : String)
  | agentMoved (agentId : AgentId) (from_ : Position) (to_ : Position)
  | agentDied (agentId : AgentId) (reason : DeathReason)
  | actionObserved (agentId : AgentId) (action : String)
  | agentReproduced (parentA parentB : AgentId) (childId : AgentId)
  | structureBuilt (agentId : AgentId) (kind : StructureKind) (position : Position)
      (structureId : Nat)
  | oreNodeHarvested (agentId : AgentId) (ore : OreKind) (sourceId : Nat)
      (amount remaining : Nat)
  | oreNodeDrained (ore : OreKind) (sourceId : Nat) (position : Position)
  | scanReport (agentId : AgentId) (position : Position) (qi : Nat)
      (nearbyQiSources : List QiSourceSnapshot)
      (nearbyStructures : List StructureSnapshot)
deriving DecidableEq, Repr

inductive ActionError
  | agentNotFound (id : AgentId)
  | agentDead (id : AgentId)
  | insufficientQi (agentId : AgentId) (required available : Nat)
  | insufficientOre (agentId : AgentId) (ore : OreKind) (required available : Nat)
  | invalidPow (agentId : AgentId) (nonce : Nat)
  | positionOccupied (agentId : AgentId) (target : Position) (occupiedBy : AgentId)
  | reproductionDeclined (agentId : AgentId) (partner : AgentId)
  | partnerNotFound (agentId : AgentId) (partner : AgentId)
  | partnerOutOfZone (agentId : AgentId) (partner : AgentId)
  | structureSpaceOccupied (agentId : AgentId) (position : Position)
  | oreSourceUnavailable (agentId : AgentId) (ore : OreKind) (sourceId : Option Nat)
  | oreSourceDepleted (agentId : AgentId) (ore : OreKind) (sourceId : Nat) (available : Nat)
  | moveOutOfRange (agentId : AgentId) (dx dy dz : Int)
deriving DecidableEq, Repr

structure ActionRequest where
  agentId : AgentId
  action : Action
deriving DecidableEq, Repr

structure ActionRejection where
  request : ActionRequest
  error : ActionError
deriving DecidableEq, Repr

structure Agent where
  id : AgentId
  name : String
  qi : Nat
  transistors : Nat
  position : Position
  alive : Bool
  age : Nat
  maxAge : Nat
  discoveredZones : List Zone
deriving DecidableEq, Repr

/-- `Agent::gain_ore`. -/
def Agent.gainOre (a : Agent) (ore : OreKind) (amount : Nat) : Agent :=
  match ore with
  | .qi => { a with qi := satAdd32 a.qi amount }
  | .transistor => { a with transistors := satAdd32 a.transistors amount }

structure World where
  tick : Nat
  nextAgentId : AgentId
  nextStructureId : Nat
  nextQiSourceId : Nat
  maxQiSupply : Option Nat
  recycledQi : Nat
  agents : List Agent
  events : List Event
  occupied : List (Position × AgentId)
  structures : List Structure
  qiSources : List QiSource
deriving DecidableEq, Repr

def World.new : World :=
  { tick := 0
    nextAgentId := 1
    nextStructureId := 1
    nextQiSourceId := 1
    maxQiSupply := none
    recycledQi := 0
    agents := []
    events := []
    occupied := []
    structures := []
    qiSources := [] }

def occLookup (occ : List (Position × AgentId)) (p : Position) : Option AgentId :=
  (occ.find? (fun e => decide (e.1 = p))).map (·.2)

def occRemove (occ : List (Position × AgentId)) (p : Position) :
    List (Position × AgentId) :=
  occ.filter (fun e => decide (e.1 ≠ p))

def occInsert (occ : List (Position × AgentId)) (p : Position) (id : AgentId) :
    List (Position × AgentId) :=
  (p, id) :: occRemove occ p

def agentById (agents : List Agent) (id : AgentId) : Option Agent :=
  agents.find? (fun a => decide (a.id = id))

def updAgents (agents : List Agent) (id : AgentId) (f : Agent → Agent) : List Agent :=
  agents.map (fun a => if a.id = id then f a else a)

/-- The `while self.occupied.contains_key(&pos)` walk of `spawn_agent_with_age`,
with enough fuel to clear every occupied cell on the +x ray. -/
def findFreeAux (occ : List (Position × AgentId)) : Nat → Position → Position
  | 0, p => p
  | fuel + 1, p =>
    if occLookup occ p = none then p else findFreeAux occ fuel (p.offset 1 0 0)

def findFree (occ : List (Position × AgentId)) (p : Position) : Position :=
  findFreeAux occ (occ.length + 1) p

/-- `World::spawn_agent_with_age`. -/
def World.spawnAgentWithAge (w : World) (name : String) (qi : Nat) (position : Position)
    (maxAge : Nat) : AgentId × World :=
  let pos := findFree w.occupied position
  let agentId := w.nextAgentId
  let agent : Agent :=
    { id := agentId
      name := name
      qi := qi
      transistors := 0
      position := pos
      alive := true
      age := 0
      maxAge := max maxAge 1
      discoveredZones := [pos.zone] }
  (agentId,
    { w with
        nextAgentId := agentId + 1,
        events := w.events ++ [.agentSpawned agentId name qi pos],
        agents := w.agents ++ [agent],
        occupied := occInsert w.occupied pos agentId })

/-- `World::spawn_agent`. -/
def World.spawnAgent (w : World) (name : String) (qi : Nat) (position : Position) :
    AgentId × World :=
  w.spawnAgentWithAge name qi position DEFAULT_MAX_AGENT_AGE

def World.setMaxQiSupply (w : World) (max : Nat) : World :=
  { w with maxQiSupply := some max }

/-- `World::recycle_qi`. -/
def World.recycleQi (w : World) (amount : Nat) : World :=
  { w with recycledQi := satAdd64 w.recycledQi amount }

/-- `World::total_qi_supply` (saturating folds, as in the source). -/
def World.totalQiSupply (w : World) : Nat :=
  let agentsQi := w.agents.foldl (fun acc a => satAdd64 acc a.qi) 0
  let sourcesQi :=
    (w.qiSources.filter (fun s => decide (s.ore = OreKind.qi))).foldl
      (fun acc s => satAdd64 acc s.current) 0
  satAdd64 (satAdd64 agentsQi sourcesQi) w.recycledQi

/-- `World::add_qi_source`. -/
def World.addQiSource (w : World) (ore : OreKind) (position : Position)
    (capacity rechargePerTick : Nat) : Nat × World :=
  let id := w.nextQiSourceId
  (id,
    { w with
        nextQiSourceId := id + 1,
        qiSources := w.qiSources ++
          [{ id := id
             ore := ore
             position := position
             capacity := capacity
             current := capacity
             rechargePerTick := rechargePerTick }] })

/-- One iteration of the `recharge_qi_sources` loop body on a single source,
threading the global mint budget and the recycled pool. -/
def rechargeSource (src : QiSource) (budget pool : Nat) : QiSource × Nat × Nat :=
  if src.ore ≠ OreKind.qi then
    ({ src with current := min (satAdd32 src.current src.rechargePerTick) src.capacity },
      budget, pool)
  else
    let headroom := src.capacity - src.current
    if headroom = 0 then (src, budget, pool)
    else
      let allowance := src.rechargePerTick
      let fromPool := min (min pool headroom) allowance
      let refilled : QiSource × Nat :=
        if fromPool > 0 then
          ({ src with current := min (satAdd32 src.current (cast32 fromPool)) src.capacity },
            pool - fromPool)
        else (src, pool)
      let src1 := refilled.1
      let pool1 := refilled.2
      let remainingAllowance := allowance - fromPool
      let remainingHeadroom := min (headroom - fromPool) (src1.capacity - src1.current)
      if remainingAllowance > 0 ∧ remainingHeadroom > 0 ∧ budget > 0 then
        let mint := min (min remainingAllowance remainingHeadroom) budget
        if mint > 0 then
          ({ src1 with current := min (satAdd32 src1.current (cast32 mint)) src1.capacity },
            budget - mint, pool1)
        else (src1, budget, pool1)
      else (src1, budget, pool1)

def rechargeList : List QiSource → Nat → Nat → List QiSource × Nat × Nat
  | [], budget, pool => ([], budget, pool)
  | src :: rest, budget, pool =>
    let r := rechargeSource src budget pool
    let rs := rechargeList rest r.2.1 r.2.2
    (r.1 :: rs.1, rs.2.1, rs.2.2)

/-- `World::recharge_qi_sources`. -/
def World.rechargeQiSources (w : World) : World :=
  let qiBudget :=
    match w.maxQiSupply with
    | some max => max - w.totalQiSupply
    | none => u64Max
  let r := rechargeList w.qiSources qiBudget w.recycledQi
  { w with qiSources := r.1, recycledQi := r.2.2 }

/-- `World::nearby_qi_sources`. -/
def World.nearbyQiSources (w : World) (position : Position) (range : Int) :
    List QiSourceSnapshot :=
  (w.qiSources.filter (fun s => s.position.withinRange position range)).map
    (fun s => { id := s.id
                ore := s.ore
                position := s.position
                available := s.current
                capacity := s.capacity })

/-- `World::nearby_structures`. -/
def World.nearbyStructures (w : World) (position : Position) (range : Int) :
    List StructureSnapshot :=
  (w.structures.filter (fun s => s.position.withinRange position range)).map
    (fun s => { id := s.id, kind := s.kind, position := s.position })

def manhattanDist (a b : Position) : Int :=
  |a.x - b.x| + |a.y - b.y| + |a.z - b.z|

/-- `nearest_ore_source`. -/
def nearestOreSource (sources : List QiSource) (ore : OreKind) (position : Position) :
    Option QiSource :=
  let best := sources.foldl
    (fun best src =>
      if src.ore ≠ ore then best
      else if src.current = 0 then best
      else if !(position.withinRange src.position SCAN_RANGE) then best
      else
        let dist := manhattanDist position src.position
        match best with
        | some (bestDist, bestSrc) =>
          if dist < bestDist then some (dist, src) else some (bestDist, bestSrc)
        | none => some (dist, src))
    (none : Option (Int × QiSource))
  best.map (·.2)

structure TickResult where
  tick : Nat
  events : List Event
  rejections : List ActionRejection
deriving DecidableEq, Repr

def insertIntent (intents : List (AgentId × AgentId)) (a p : AgentId) :
    List (AgentId × AgentId) :=
  (a, p) :: intents.filter (fun e => decide (e.1 ≠ a))

def lookupIntent (intents : List (AgentId × AgentId)) (a : AgentId) : Option AgentId :=
  (intents.find? (fun e => decide (e.1 = a))).map (·.2)

/-- The intents map of `Vm::step` (later `Reproduce` requests by the same agent
overwrite earlier ones, as `HashMap::insert` does). -/
def collectIntents (reqs : List ActionRequest) : List (AgentId × AgentId) :=
  reqs.foldl
    (fun m r =>
      match r.action with
      | .reproduce partner => insertIntent m r.agentId partner
      | _ => m) []

/-- Membership in `mutual_pairs`: both sides declare each other. -/
def mutualConsent (intents : List (AgentId × AgentId)) (a b : AgentId) : Bool :=
  decide (lookupIntent intents a = some b) && decide (lookupIntent intents b = some a)

def snapLookup (snap : List (AgentId × Position × Bool)) (id : AgentId) :
    Option (Position × Bool) :=
  (snap.find? (fun e => decide (e.1 = id))).map (·.2)

/-- `iter_mut().find(p)` followed by a mutation: update the first match only. -/
def updateFirstSource (l : List QiSource) (p : QiSource → Bool)
    (f : QiSource → QiSource) : List QiSource :=
  match l with
  | [] => []
  | x :: xs => if p x then f x :: xs else x :: updateFirstSource xs p f

/-- The `Action::Move` arm of `Vm::apply_action`. -/
def Vm.applyMove (w : World) (agent : Agent) (dx dy dz : Int) :
    World × Except ActionError (List Event) :=
  let maxDelta := max (max |dx| |dy|) |dz|
  if maxDelta > MAX_MOVE_RADIUS then
    (w, .error (.moveOutOfRange agent.id dx dy dz))
  else
    let from_ := agent.position
    let to_ := from_.offset dx dy dz
    let blocker : Option AgentId :=
      match occLookup w.occupied to_ with
      | some other => if other = agent.id then none else some other
      | none => none
    match blocker with
    | some other => (w, .error (.positionOccupied agent.id to_ other))
    | none =>
      let zones :=
        if from_.zone ≠ to_.zone ∧ ¬ to_.zone ∈ agent.discoveredZones then
          to_.zone :: agent.discoveredZones
        else agent.discoveredZones
      if agent.qi < 1 then
        ({ w with agents := (updAgents w.agents agent.id
              (fun a => { a with discoveredZones := zones })) },
          .error (.insufficientQi agent.id 1 agent.qi))
      else
        let agent' := { agent with
          qi := agent.qi - 1
          position := to_
          age := agent.age + 1
          discoveredZones := zones }
        let w1 := { w with
          agents := updAgents w.agents agent.id (fun _a => agent'),
          occupied := occInsert (occRemove w.occupied from_) to_ agent.id }
        (w1.recycleQi 1,
          .ok [.qiSpent agent.id 1 (Action.move dx dy dz).label,
               .agentMoved agent.id from_ to_])

/-- The `Action::Scan` arm of `Vm::apply_action`. -/
def Vm.applyScan (w : World) (agent : Agent) :
    World × Except ActionError (List Event) :=
  let agent' := { agent with age := agent.age + 1 }
  let w1 := { w with agents := updAgents w.agents agent.id (fun _a => agent') }
  (w1, .ok [.actionObserved agent.id "scan",
            .scanReport agent.id agent.position agent.qi
              (w1.nearbyQiSources agent.position SCAN_RANGE)
              (w1.nearbyStructures agent.position SCAN_RANGE)])

/-- The `Action::Reproduce` arm of `Vm::apply_action`. -/
def Vm.applyReproduce (w : World) (agent : Agent) (partner : AgentId)
    (intents : List (AgentId × AgentId)) (snap : List (AgentId × Position × Bool)) :
    World × Except ActionError (List Event) :=
  let agentId := agent.id
  let agentZone := agent.position.zone
  let childPosition := agent.position
  match snapLookup snap partner with
  | none => (w, .error (.partnerNotFound agentId partner))
  | some (partnerPos, partnerAlive) =>
    if partnerAlive = false then
      (w, .error (.partnerNotFound agentId partner))
    else if agentZone ≠ partnerPos.zone then
      (w, .error (.partnerOutOfZone agentId partner))
    else if !(mutualConsent intents agentId partner) then
      (w, .error (.reproductionDeclined agentId partner))
    else if agent.qi < 1 then
      (w, .error (.insufficientQi agentId 1 agent.qi))
    else
      let agent' := { agent with qi := agent.qi - 1, age := agent.age + 1 }
      let w1 := { w with agents := updAgents w.agents agentId (fun _a => agent') }
      let w2 := w1.recycleQi 1
      let childName := "Child-" ++ toString agentId ++ "-" ++ toString partner
      let spawned := w2.spawnAgent childName 1 childPosition
      (spawned.2,
        .ok [.qiSpent agentId 1 (Action.reproduce partner).label,
             .agentReproduced agentId partner spawned.1])

/-- The `Action::BuildStructure` arm of `Vm::apply_action`. -/
def Vm.applyBuild (w : World) (agent : Agent) (kind : StructureKind) :
    World × Except ActionError (List Event) :=
  if w.structures.any (fun s => decide (s.position = agent.position)) then
    (w, .error (.structureSpaceOccupied agent.id agent.position))
  -- `agent.spend_ore(OreKind::Transistor, 1)?` runs only for Programmable and
  -- propagates `InsufficientOre` before the Qi cost is touched.
  else if kind = StructureKind.programmable ∧ agent.transistors < 1 then
    (w, .error (.insufficientOre agent.id OreKind.transistor 1 agent.transistors))
  -- `if cost > 0 { agent.spend_qi(cost)?; ... }`: only the spend and its
  -- event are conditional; the build tail runs once.  The Transistor spend
  -- above never changes `qi`, so the insufficiency check reads the original
  -- balance.
  else if (Action.buildStructure kind).qiCost > 0 ∧
      agent.qi < (Action.buildStructure kind).qiCost then
    ({ w with agents := (updAgents w.agents agent.id (fun _a =>
          if kind = StructureKind.programmable then
            { agent with transistors := agent.transistors - 1 }
          else agent)) },
      .error (.insufficientQi agent.id (Action.buildStructure kind).qiCost agent.qi))
  else
    let agent1 :=
      if kind = StructureKind.programmable then
        { agent with transistors := agent.transistors - 1 }
      else agent
    let cost := (Action.buildStructure kind).qiCost
    let agent2 := if cost > 0 then { agent1 with qi := agent1.qi - cost } else agent1
    let spendEvents :=
      if cost > 0 then
        [Event.qiSpent agent.id cost (Action.buildStructure kind).label]
      else []
    let reclaimed := if cost > 0 then cost else 0
    let structureId := w.nextStructureId
    let struct : Structure :=
      { id := structureId
        kind := kind
        position := agent.position
        zone := agent.position.zone
        owner := agent.id }
    let agent3 := { agent2 with age := agent2.age + 1 }
    let w1 := { w with
      agents := updAgents w.agents agent.id (fun _a => agent3),
      nextStructureId := structureId + 1,
      structures := w.structures ++ [struct] }
    let w2 := if reclaimed > 0 then w1.recycleQi reclaimed else w1
    (w2, .ok (spendEvents ++ [.structureBuilt agent.id kind agent.position structureId]))

/-- The `Action::HarvestOre` arm of `Vm::apply_action`. -/
def Vm.applyHarvest (w : World) (agent : Agent) (ore : OreKind) (sourceId : Nat) :
    World × Except ActionError (List Event) :=
  let selected :=
    if sourceId = 0 then nearestOreSource w.qiSources ore agent.position
    else w.qiSources.find? (fun s => decide (s.id = sourceId) && decide (s.ore = ore))
  match selected with
  | none =>
    (w, .error (.oreSourceUnavailable agent.id ore
          (if sourceId ≠ 0 then some sourceId else none)))
  | some src =>
    if !(agent.position.withinRange src.position HARVEST_RANGE) then
      (w, .error (.oreSourceUnavailable agent.id ore
            (if sourceId ≠ 0 then some sourceId else none)))
    else if src.current < HARVEST_PER_ACTION then
      (w, .error (.oreSourceDepleted agent.id ore src.id src.current))
    else if agent.qi < 1 then
      (w, .error (.insufficientQi agent.id 1 agent.qi))
    else
      let agent' := { agent with qi := agent.qi - 1, age := agent.age + 1 }
      let w1 := { w with agents := updAgents w.agents agent.id (fun _a => agent') }
      let w2 := w1.recycleQi 1
      let spent := Event.qiSpent agent.id 1 (Action.harvestOre ore sourceId).label
      match w2.qiSources.find?
          (fun s => decide (s.id = src.id) && decide (s.ore = ore)) with
      | none => (w2, .ok [spent])
      | some src2 =>
        let amount := min src2.current HARVEST_PER_ACTION
        let newCurrent := src2.current - amount
        let w3 := { w2 with qiSources := (updateFirstSource w2.qiSources
          (fun s => decide (s.id = src.id) && decide (s.ore = ore))
          (fun s => { s with current := newCurrent })) }
        let w4 := { w3 with agents := (updAgents w3.agents agent.id
          (fun a => a.gainOre ore amount)) }
        let evs := [spent,
          .oreGained agent.id ore amount "ore_node",
          .oreNodeHarvested agent.id ore src.id amount newCurrent]
        (w4, .ok (if newCurrent = 0 then
            evs ++ [.oreNodeDrained ore src.id src2.position]
          else evs))

/-- The `Action::Idle` arm of `Vm::apply_action`. -/
def Vm.applyIdle (w : World) (agent : Agent) :
    World × Except ActionError (List Event) :=
  ({ w with agents := (updAgents w.agents agent.id
        (fun _a => { agent with age := agent.age + 1 })) }, .ok [])

/-- `Vm::apply_action`.  Returns the world as mutated so far together with the
outcome; on `Err` the mutations already applied through `&mut self` persist,
exactly as in the source.  Each match arm of the source is its own definition
above. -/
def Vm.applyAction (w : World) (request : ActionRequest)
    (intents : List (AgentId × AgentId)) (snap : List (AgentId × Position × Bool)) :
    World × Except ActionError (List Event) :=
  match agentById w.agents request.agentId with
  | none => (w, .error (.agentNotFound request.agentId))
  | some agent =>
    if agent.alive = false then (w, .error (.agentDead request.agentId))
    else
      match request.action with
      | .move dx dy dz => Vm.applyMove w agent dx dy dz
      | .scan => Vm.applyScan w agent
      | .reproduce partner => Vm.applyReproduce w agent partner intents snap
      | .buildStructure kind => Vm.applyBuild w agent kind
      | .harvestOre ore sourceId => Vm.applyHarvest w agent ore sourceId
      | .idle => Vm.applyIdle w agent

/-- `Vm::mark_agent_dead`. -/
def Vm.markAgentDead (w : World) (agentId : AgentId) (reason : DeathReason) :
    World × Option Event :=
  match agentById w.agents agentId with
  | none => (w, none)
  | some agent =>
    if agent.alive = false then (w, none)
    else
      ({ w with
          agents := (updAgents w.agents agentId (fun a => { a with alive := false })),
          occupied := occRemove w.occupied agent.position },
        some (.agentDied agentId reason))

def enforceAgeList (w : World) : List AgentId → World × List Event
  | [] => (w, [])
  | id :: rest =>
    let r := Vm.markAgentDead w id DeathReason.age
    let rs := enforceAgeList r.1 rest
    (rs.1, (match r.2 with | some e => [e] | none => []) ++ rs.2)

/-- `Vm::enforce_age_limits`. -/
def Vm.enforceAgeLimits (w : World) : World × List Event :=
  let doomed := (w.agents.filter (fun a => a.alive && decide (a.maxAge ≤ a.age))).map (·.id)
  enforceAgeList w doomed

def Vm.processRequests (w : World) (reqs : List ActionRequest)
    (intents : List (AgentId × AgentId)) (snap : List (AgentId × Position × Bool)) :
    World × List Event × List ActionRejection :=
  match reqs with
  | [] => (w, [], [])
  | request :: rest =>
    let r := Vm.applyAction w request intents snap
    let rs := Vm.processRequests r.1 rest intents snap
    match r.2 with
    | .ok evs0 => (rs.1, evs0 ++ rs.2.1, rs.2.2)
    | .error e => (rs.1, rs.2.1, ⟨request, e⟩ :: rs.2.2)

/-- `Vm::step`. -/
def Vm.step (w : World) (actions : List ActionRequest) : World × TickResult :=
  let tick := w.tick + 1
  let w1 := w.rechargeQiSources
  let intents := collectIntents actions
  let snap := w1.agents.map (fun a => (a.id, a.position, a.alive))
  let pr := Vm.processRequests w1 actions intents snap
  let w2 := pr.1
  let enforced := Vm.enforceAgeLimits w2
  let tickEvents := Event.tickStarted tick ::
    (pr.2.1 ++ enforced.2 ++ [Event.tickCompleted tick])
  let w4 := { enforced.1 with tick := tick, events := enforced.1.events ++ tickEvents }
  (w4, { tick := tick, events := tickEvents, rejections := pr.2.2 })

/-- `Vm::seed_ore_source` (delegates to `World::add_qi_source`). -/
def Vm.seedOreSource (w : World) (ore : OreKind) (position : Position)
    (capacity rechargePerTick : Nat) : Nat × World :=
  w.addQiSource ore position capacity rechargePerTick

/-- `Vm::seed_qi_source`. -/
def Vm.seedQiSource (w : World) (position : Position) (capacity rechargePerTick : Nat) :
    Nat × World :=
  Vm.seedOreSource w OreKind.qi position capacity rechargePerTick

/-! ### Concrete scenarios used by individual claims -/

/-- C1 scenario: agents 1 and 2 (each with 1 Qi, same zone) mutually declare
each other as reproduction partner in the same tick. -/
def c1World : World :=
  ((World.new.spawnAgent "Ra" 1 Position.origin).2.spawnAgent "Rb" 1 Position.origin).2

def c1Result : World × TickResult :=
  Vm.step c1World [⟨1, .reproduce 2⟩, ⟨2, .reproduce 1⟩]

/-- C1: the spec requires that a mutual pair spawns exactly one child per tick,
never one per declaring agent.  The code disagrees: `mutual_pairs` is never
consumed, so on the failing input (both sides of a mutual pair submit
`Reproduce` with 1 Qi each) both requests succeed and two children are
spawned — the world ends with 4 agents and two `AgentReproduced` events. -/
theorem c1_mutual_pair_spawns_two_children :
    c1Result.2.rejections = [] ∧
    c1Result.1.agents.length = 4 ∧
    (c1Result.2.events.filter (fun e =>
      match e with | .agentReproduced _ _ _ => true | _ => false)).length = 2 := by
  decide

/-- C2 counterexample scenario: cap 2, two agents holding 1 Qi each, mutual
reproduction. -/
def c2World : World :=
  (((World.new.setMaxQiSupply 2).spawnAgent "Ra" 1 Position.origin).2.spawnAgent
    "Rb" 1 Position.origin).2

/-- C2 counterexample: with `max_qi_supply = 2` and total supply 2 before the
tick, one `Vm::step` whose batch contains a mutual `Reproduce` pair raises the
total supply to 4 > 2: each successful `Reproduce` sends the initiator's spent
Qi to the recycled pool yet also mints a child carrying 1 fresh Qi. -/
theorem c2_cap_exceeded_by_reproduction :
    c2World.maxQiSupply = some 2 ∧
    c2World.totalQiSupply = 2 ∧
    (Vm.step c2World [⟨1, .reproduce 2⟩, ⟨2, .reproduce 1⟩]).1.totalQiSupply = 4 := by
  decide

/-- C3 scenario A: agent with 0 Qi at (15,0,0) attempts a zone-crossing move. -/
def c3WorldA : World := (World.new.spawnAgent "Zed" 0 ⟨15, 0, 0⟩).2

def c3ResultA : World × TickResult := Vm.step c3WorldA [⟨1, .move 1 0 0⟩]

/-- C3 scenario B: agent with 1 Qi harvests 3 Transistor ore (leaving 0 Qi),
then attempts to build a `Programmable` structure. -/
def c3WorldB : World :=
  (Vm.seedOreSource (World.new.spawnAgent "Tinkerer" 1 Position.origin).2
    OreKind.transistor Position.origin 5 0).2

def c3ResultB1 : World × TickResult :=
  Vm.step c3WorldB [⟨1, .harvestOre .transistor 0⟩]

def c3ResultB2 : World × TickResult :=
  Vm.step c3ResultB1.1 [⟨1, .buildStructure .programmable⟩]

/-- C3: the claim (and the spec's all-or-nothing rule) says a request rejected
with `InsufficientQi` leaves the world unchanged.  The code disagrees on both
cited paths: (A) a Move rejected with `InsufficientQi` still records the
destination zone (1,0,0) in `discovered_zones` because the zone insert happens
before `spend_qi`; (B) a `Programmable` build rejected with `InsufficientQi`
still consumes 1 Transistor ore (3 → 2) because `spend_ore` runs before
`spend_qi`. -/
theorem c3_rejected_requests_leave_partial_mutations :
    (c3ResultA.2.rejections = [⟨⟨1, .move 1 0 0⟩, .insufficientQi 1 1 0⟩] ∧
      (agentById c3ResultA.1.agents 1).map (·.discoveredZones) =
        some [⟨1, 0, 0⟩, ⟨0, 0, 0⟩]) ∧
    (c3ResultB1.2.rejections = [] ∧
      (agentById c3ResultB1.1.agents 1).map (fun a => (a.qi, a.transistors)) =
        some (0, 3) ∧
      c3ResultB2.2.rejections =
        [⟨⟨1, .buildStructure .programmable⟩, .insufficientQi 1 1 0⟩] ∧
      (agentById c3ResultB2.1.agents 1).map (·.transistors) = some 2) := by
  decide

/-- C4 counterexample scenario: an agent holding `u32::MAX` Qi harvesting a
full Qi source it stands on. -/
def c4World : World :=
  (Vm.seedQiSource (World.new.spawnAgent "Hoarder" u32Max Position.origin).2
    Position.origin 5 0).2

def c4Result : World × TickResult := Vm.step c4World [⟨1, .harvestOre .qi 0⟩]

/-- C4 counterexample: the claim says a successful harvest charges exactly
1 Qi and credits the drained amount (here `min(5,3) = 3`) to the agent.  At
`qi = u32::MAX` the harvest succeeds and drains 3 from the source (5 → 2), but
`gain_ore` uses `saturating_add`, so the balance ends at `u32::MAX`, not
`u32::MAX - 1 + 3`. -/
theorem c4_saturating_credit_counterexample :
    c4Result.2.rejections = [] ∧
    (agentById c4Result.1.agents 1).map (·.qi) = some u32Max ∧
    c4Result.1.qiSources.map (·.current) = [2] ∧
    u32Max ≠ u32Max - 1 + 3 := by
  decide

/-- C7 counterexample scenario: the nearest (and only) non-empty Qi source is
at Chebyshev/Manhattan distance 2 — within `SCAN_RANGE` but outside
`HARVEST_RANGE`. -/
def c7World : World :=
  (Vm.seedQiSource (World.new.spawnAgent "Reach" 3 Position.origin).2
    ⟨2, 0, 0⟩ 5 0).2

def c7Result : World × TickResult := Vm.step c7World [⟨1, .harvestOre .qi 0⟩]

/-- C7 counterexample: the claim says a `HarvestOre` with `source_id == 0`
harvests the nearest non-empty in-`SCAN_RANGE` source.  Here the selection
does pick source 1 (distance 2 ≤ SCAN_RANGE), yet the engine rejects with
`OreSourceUnavailable` and charges nothing, because the code additionally
requires the selected source to lie within `HARVEST_RANGE` (= 1). -/
theorem c7_nearest_source_beyond_harvest_range_rejected :
    (nearestOreSource c7World.qiSources .qi Position.origin).map (·.id) = some 1 ∧
    c7Result.2.rejections =
      [⟨⟨1, .harvestOre .qi 0⟩, .oreSourceUnavailable 1 .qi none⟩] ∧
    (agentById c7Result.1.agents 1).map (·.qi) = some 3 := by
  decide

end Harimu

namespace Harimu

@[simp] lemma recycleQi_agents (w : World) (n : Nat) :
    (w.recycleQi n).agents = w.agents := rfl

@[simp] lemma recycleQi_nextAgentId (w : World) (n : Nat) :
    (w.recycleQi n).nextAgentId = w.nextAgentId := rfl

@[simp] lemma gainOre_id (a : Agent) (ore : OreKind) (n : Nat) :
    (a.gainOre ore n).id = a.id := by cases ore <;> rfl

@[simp] lemma gainOre_alive (a : Agent) (ore : OreKind) (n : Nat) :
    (a.gainOre ore n).alive = a.alive := by cases ore <;> rfl

@[simp] lemma gainOre_maxAge (a : Agent) (ore : OreKind) (n : Nat) :
    (a.gainOre ore n).maxAge = a.maxAge := by cases ore <;> rfl

@[simp] lemma gainOre_age (a : Agent) (ore : OreKind) (n : Nat) :
    (a.gainOre ore n).age = a.age := by cases ore <;> rfl

@[simp] lemma gainOre_position (a : Agent) (ore : OreKind) (n : Nat) :
    (a.gainOre ore n).position = a.position := by cases ore <;> rfl

lemma updAgents_updAgents_const (l : List Agent) (i : AgentId) (x : Agent)
    (g : Agent → Agent) (hx : x.id = i) :
    updAgents (updAgents l i (fun _a => x)) i g = updAgents l i (fun _a => g x) := by
  unfold updAgents
  rw [List.map_map]
  apply List.map_congr_left
  intro a _
  by_cases h : a.id = i <;> simp [h, hx]

/-- Shape of an erroring action arm: the next agent id is untouched, and the
agents are unchanged, changed only in `discovered_zones`, or the acting agent
is replaced preserving id, aliveness, max age and age. -/
def ErrShape (w : World) (agent : Agent)
    (r : World × Except ActionError (List Event)) : Prop :=
  ∃ e, r.2 = Except.error e ∧ r.1.nextAgentId = w.nextAgentId ∧
    (r.1.agents = w.agents ∨
     (∃ zs, r.1.agents =
        updAgents w.agents agent.id (fun a => { a with discoveredZones := zs })) ∨
     (∃ ag', r.1.agents = updAgents w.agents agent.id (fun _a => ag') ∧
        ag'.id = agent.id ∧ ag'.alive = agent.alive ∧ ag'.maxAge = agent.maxAge ∧
        ag'.age = agent.age))

/-- Shape of a successful action arm: the acting agent is replaced preserving
id, aliveness and max age with age exactly one larger, possibly with a fresh
child appended. -/
def OkShape (w : World) (agent : Agent)
    (r : World × Except ActionError (List Event)) : Prop :=
  ∃ evs ag', r.2 = Except.ok evs ∧
    (r.1.agents = updAgents w.agents agent.id (fun _a => ag') ∧
        r.1.nextAgentId = w.nextAgentId ∨
      ∃ c, r.1.agents = updAgents w.agents agent.id (fun _a => ag') ++ [c] ∧
        c.id = w.nextAgentId ∧ c.alive = true ∧ c.age = 0 ∧
        c.maxAge = DEFAULT_MAX_AGENT_AGE ∧
        r.1.nextAgentId = w.nextAgentId + 1) ∧
    ag'.id = agent.id ∧ ag'.alive = agent.alive ∧ ag'.maxAge = agent.maxAge ∧
    ag'.age = agent.age + 1

def StepShape (w : World) (agent : Agent)
    (r : World × Except ActionError (List Event)) : Prop :=
  ErrShape w agent r ∨ OkShape w agent r

lemma applyMove_shape (w : World) (agent : Agent) (dx dy dz : Int) :
    StepShape w agent (Vm.applyMove w agent dx dy dz) := by
  unfold StepShape ErrShape OkShape
  simp only [Vm.applyMove]
  split
  · exact Or.inl ⟨_, rfl, rfl, Or.inl rfl⟩
  · split
    · exact Or.inl ⟨_, rfl, rfl, Or.inl rfl⟩
    · split
      · exact Or.inl ⟨_, rfl, rfl, Or.inr (Or.inl ⟨_, rfl⟩)⟩
      · exact Or.inr ⟨_, _, rfl, Or.inl ⟨rfl, rfl⟩, rfl, rfl, rfl, rfl⟩

lemma applyScan_shape (w : World) (agent : Agent) :
    StepShape w agent (Vm.applyScan w agent) :=
  Or.inr ⟨_, _, rfl, Or.inl ⟨rfl, rfl⟩, rfl, rfl, rfl, rfl⟩

lemma applyIdle_shape (w : World) (agent : Agent) :
    StepShape w agent (Vm.applyIdle w agent) :=
  Or.inr ⟨_, _, rfl, Or.inl ⟨rfl, rfl⟩, rfl, rfl, rfl, rfl⟩

lemma applyReproduce_shape (w : World) (agent : Agent) (partner : AgentId)
    (intents : List (AgentId × AgentId)) (snap : List (AgentId × Position × Bool)) :
    StepShape w agent (Vm.applyReproduce w agent partner intents snap) := by
  unfold StepShape ErrShape OkShape
  simp only [Vm.applyReproduce]
  split
  · exact Or.inl ⟨_, rfl, rfl, Or.inl rfl⟩
  · split
    · exact Or.inl ⟨_, rfl, rfl, Or.inl rfl⟩
    · split
      · exact Or.inl ⟨_, rfl, rfl, Or.inl rfl⟩
      · split
        · exact Or.inl ⟨_, rfl, rfl, Or.inl rfl⟩
        · split
          · exact Or.inl ⟨_, rfl, rfl, Or.inl rfl⟩
          · refine Or.inr ⟨_, _, rfl, Or.inr ⟨_, rfl, rfl, rfl, rfl, ?_, rfl⟩,
              rfl, rfl, rfl, rfl⟩
            show max DEFAULT_MAX_AGENT_AGE 1 = DEFAULT_MAX_AGENT_AGE
            decide

lemma applyBuild_shape (w : World) (agent : Agent) (kind : StructureKind) :
    StepShape w agent (Vm.applyBuild w agent kind) := by
  unfold StepShape ErrShape OkShape
  unfold Vm.applyBuild
  split
  · exact Or.inl ⟨_, rfl, rfl, Or.inl rfl⟩
  · split
    · exact Or.inl ⟨_, rfl, rfl, Or.inl rfl⟩
    · split
      · refine Or.inl ⟨_, rfl, rfl, Or.inr (Or.inr ⟨_, rfl, ?_, ?_, ?_, ?_⟩)⟩ <;>
          by_cases hkind : kind = StructureKind.programmable <;> simp [hkind]
      · refine Or.inr ⟨_, _, rfl, Or.inl ⟨rfl, rfl⟩, ?_, ?_, ?_, ?_⟩ <;>
          by_cases hkind : kind = StructureKind.programmable <;>
          simp [hkind, Action.qiCost]

lemma applyHarvest_shape (w : World) (agent : Agent) (ore : OreKind)
    (sourceId : Nat) :
    StepShape w agent (Vm.applyHarvest w agent ore sourceId) := by
  unfold StepShape ErrShape OkShape
  simp only [Vm.applyHarvest]
  split
  · exact Or.inl ⟨_, rfl, rfl, Or.inl rfl⟩
  · split
    · exact Or.inl ⟨_, rfl, rfl, Or.inl rfl⟩
    · split
      · exact Or.inl ⟨_, rfl, rfl, Or.inl rfl⟩
      · split
        · exact Or.inl ⟨_, rfl, rfl, Or.inl rfl⟩
        · split
          · exact Or.inr ⟨_, _, rfl, Or.inl ⟨rfl, rfl⟩, rfl, rfl, rfl, rfl⟩
          · rename_i src2 heq2
            refine Or.inr ⟨_,
              (({ agent with qi := agent.qi - 1, age := agent.age + 1 } : Agent).gainOre
                ore (min src2.current HARVEST_PER_ACTION)),
              rfl, Or.inl ⟨?_, rfl⟩, by simp, by simp, by simp, by simp⟩
            exact updAgents_updAgents_const w.agents agent.id _ _ rfl

lemma applyAction_shape (w : World) (req : ActionRequest)
    (intents : List (AgentId × AgentId)) (snap : List (AgentId × Position × Bool)) :
    (∃ e, Vm.applyAction w req intents snap = (w, Except.error e)) ∨
    (∃ ag, agentById w.agents req.agentId = some ag ∧ ag.alive = true ∧
      StepShape w ag (Vm.applyAction w req intents snap)) := by
  simp only [Vm.applyAction]
  split
  · exact Or.inl ⟨_, rfl⟩
  · rename_i ag hfind
    split
    · exact Or.inl ⟨_, rfl⟩
    · rename_i halive
      have halive' : ag.alive = true := by
        cases h : ag.alive
        · exact absurd h halive
        · rfl
      refine Or.inr ⟨ag, hfind, halive', ?_⟩
      split
      · exact applyMove_shape _ _ _ _ _
      · exact applyScan_shape _ _
      · exact applyReproduce_shape _ _ _ _ _
      · exact applyBuild_shape _ _ _
      · exact applyHarvest_shape _ _ _ _
      · exact applyIdle_shape _ _

end Harimu

namespace Harimu

lemma agentById_mem {l : List Agent} {i : AgentId} {a : Agent}
    (h : agentById l i = some a) : a ∈ l ∧ a.id = i := by
  unfold agentById at h
  refine ⟨List.mem_of_find?_eq_some h, ?_⟩
  have h2 := List.find?_some h
  simpa using h2

lemma agentById_isSome_of_mem {l : List Agent} {a : Agent} (ha : a ∈ l) :
    agentById l a.id ≠ none := by
  unfold agentById
  intro hnone
  have := List.find?_eq_none.mp hnone a ha
  simp at this

lemma agentById_updAgents_self {l : List Agent} {i : AgentId} {f : Agent → Agent}
    {a : Agent} (h : agentById l i = some a) (hid : (f a).id = a.id) :
    agentById (updAgents l i f) i = some (f a) := by
  induction l with
  | nil => simp [agentById] at h
  | cons b t ih =>
    by_cases hb : b.id = i
    · have hba : b = a := by
        unfold agentById at h
        rw [List.find?_cons_of_pos _ (by simpa using hb)] at h
        exact Option.some_injective _ h
      subst hba
      unfold agentById updAgents
      simp only [List.map_cons, if_pos hb]
      rw [List.find?_cons_of_pos _ (by simp [hid, hb])]
    · have ht : agentById t i = some a := by
        unfold agentById at h ⊢
        rwa [List.find?_cons_of_neg _ (by simpa using hb)] at h
      unfold agentById updAgents at *
      simp only [List.map_cons, if_neg hb]
      rw [List.find?_cons_of_neg _ (by simpa using hb)]
      exact ih ht

lemma agentById_updAgents_ne {l : List Agent} {i j : AgentId} {f : Agent → Agent}
    (hji : j ≠ i) (hpres : ∀ b : Agent, b.id = i → (f b).id = i) :
    agentById (updAgents l i f) j = agentById l j := by
  induction l with
  | nil => rfl
  | cons b t ih =>
    by_cases hb : b.id = i
    · unfold agentById updAgents at *
      simp only [List.map_cons, if_pos hb]
      rw [List.find?_cons_of_neg _
          (by simp only [hpres b hb, decide_eq_true_eq]; exact fun h => hji h.symm),
        List.find?_cons_of_neg _
          (by simp only [decide_eq_true_eq, hb]; exact fun h => hji h.symm)]
      exact ih
    · unfold agentById updAgents at *
      simp only [List.map_cons, if_neg hb]
      by_cases hbj : b.id = j
      · rw [List.find?_cons_of_pos _ (by simpa using hbj),
          List.find?_cons_of_pos _ (by simpa using hbj)]
      · rw [List.find?_cons_of_neg _ (by simpa using hbj),
          List.find?_cons_of_neg _ (by simpa using hbj)]
        exact ih

lemma agentById_append_left {l₁ l₂ : List Agent} {i : AgentId} {a : Agent}
    (h : agentById l₁ i = some a) : agentById (l₁ ++ l₂) i = some a := by
  induction l₁ with
  | nil => simp [agentById] at h
  | cons b t ih =>
    unfold agentById at *
    by_cases hb : b.id = i
    · rw [List.find?_cons_of_pos _ (by simpa using hb)] at h
      rw [List.cons_append, List.find?_cons_of_pos _ (by simpa using hb)]
      exact h
    · rw [List.find?_cons_of_neg _ (by simpa using hb)] at h
      rw [List.cons_append, List.find?_cons_of_neg _ (by simpa using hb)]
      exact ih h

lemma forall_mem_updAgents {P : Agent → Prop} {l : List Agent} {i : AgentId}
    {f : Agent → Agent} (h : ∀ a ∈ l, P a) (hf : ∀ a ∈ l, a.id = i → P (f a)) :
    ∀ a' ∈ updAgents l i f, P a' := by
  intro a' ha'
  unfold updAgents at ha'
  obtain ⟨a, ha, rfl⟩ := List.mem_map.mp ha'
  by_cases hb : a.id = i
  · simpa [hb] using hf a ha hb
  · simpa [hb] using h a ha

lemma updAgents_map_id {l : List Agent} {i : AgentId} {f : Agent → Agent}
    (hpres : ∀ b : Agent, b.id = i → (f b).id = b.id) :
    (updAgents l i f).map (·.id) = l.map (·.id) := by
  unfold updAgents
  rw [List.map_map]
  apply List.map_congr_left
  intro a _
  by_cases hb : a.id = i <;> simp [hb, hpres]

end Harimu

namespace Harimu

lemma processRequests_nil (w : World) (intents : List (AgentId × AgentId))
    (snap : List (AgentId × Position × Bool)) :
    Vm.processRequests w [] intents snap = (w, [], []) := rfl

lemma processRequests_cons_ok {w : World} {req : ActionRequest}
    {rest : List ActionRequest} {intents : List (AgentId × AgentId)}
    {snap : List (AgentId × Position × Bool)} {evs0 : List Event}
    (h : (Vm.applyAction w req intents snap).2 = .ok evs0) :
    Vm.processRequests w (req :: rest) intents snap =
      ((Vm.processRequests (Vm.applyAction w req intents snap).1 rest intents snap).1,
       evs0 ++ (Vm.processRequests (Vm.applyAction w req intents snap).1 rest intents snap).2.1,
       (Vm.processRequests (Vm.applyAction w req intents snap).1 rest intents snap).2.2) := by
  simp only [Vm.processRequests, h]

lemma processRequests_cons_error {w : World} {req : ActionRequest}
    {rest : List ActionRequest} {intents : List (AgentId × AgentId)}
    {snap : List (AgentId × Position × Bool)} {e : ActionError}
    (h : (Vm.applyAction w req intents snap).2 = .error e) :
    Vm.processRequests w (req :: rest) intents snap =
      ((Vm.processRequests (Vm.applyAction w req intents snap).1 rest intents snap).1,
       (Vm.processRequests (Vm.applyAction w req intents snap).1 rest intents snap).2.1,
       ⟨req, e⟩ ::
         (Vm.processRequests (Vm.applyAction w req intents snap).1 rest intents snap).2.2) := by
  simp only [Vm.processRequests, h]

/-- Per-agent tracking through the request loop of `Vm::step`: an alive agent
stays present and alive with unchanged id and max age; its age grows by at
most one per own request, and by exactly one per own request when none of its
requests is rejected. -/
lemma processRequests_tracks (intents : List (AgentId × AgentId))
    (snap : List (AgentId × Position × Bool)) :
    ∀ (reqs : List ActionRequest) (w : World) (i : AgentId) (ag : Agent),
      agentById w.agents i = some ag → ag.alive = true →
      ∃ ag', agentById (Vm.processRequests w reqs intents snap).1.agents i = some ag' ∧
        ag'.id = ag.id ∧ ag'.alive = true ∧ ag'.maxAge = ag.maxAge ∧
        ag.age ≤ ag'.age ∧
        ag'.age ≤ ag.age + (reqs.filter (fun r => decide (r.agentId = i))).length ∧
        ((∀ rej ∈ (Vm.processRequests w reqs intents snap).2.2,
            rej.request.agentId ≠ i) →
          ag.age + (reqs.filter (fun r => decide (r.agentId = i))).length ≤ ag'.age) := by
  intro reqs
  induction reqs with
  | nil =>
    intro w i ag hfind halive
    exact ⟨ag, hfind, rfl, halive, rfl, le_refl _, by simp, by simp⟩
  | cons req rest ih =>
    intro w i ag hfind halive
    have hagid : ag.id = i := (agentById_mem hfind).2
    rcases applyAction_shape w req intents snap with ⟨e, heq⟩ |
      ⟨ag0, hfind0, halive0, hshape⟩
    · -- request fails before touching any agent
      have h2 : (Vm.applyAction w req intents snap).2 = .error e := by rw [heq]
      have h1 : (Vm.applyAction w req intents snap).1 = w := by rw [heq]
      rw [processRequests_cons_error h2]
      obtain ⟨ag', hf', hid', hal', hmax', hlo, hhi, himp⟩ :=
        ih (Vm.applyAction w req intents snap).1 i ag (by rw [h1]; exact hfind) halive
      by_cases hri : req.agentId = i
      · refine ⟨ag', hf', hid', hal', hmax', hlo, ?_, ?_⟩
        · calc ag'.age ≤ ag.age + (rest.filter (fun r => decide (r.agentId = i))).length := hhi
            _ ≤ _ := by simp [List.filter_cons, hri]
        · intro hnorej
          exact absurd hri (hnorej ⟨req, e⟩ (List.mem_cons_self _ _))
      · refine ⟨ag', hf', hid', hal', hmax', hlo, ?_, ?_⟩
        · simpa [List.filter_cons, hri] using hhi
        · intro hnorej
          have := himp (fun rej hm => hnorej rej (List.mem_cons_of_mem _ hm))
          simpa [List.filter_cons, hri] using this
    · have hag0id : ag0.id = req.agentId := (agentById_mem hfind0).2
      by_cases hri : req.agentId = i
      · have hag0 : ag0 = ag := by
          rw [hri] at hfind0
          exact Option.some.inj (hfind0.symm.trans hfind)
        subst hag0
        have hfind2 : agentById w.agents ag0.id = some ag0 := by
          rw [hagid]; exact hfind
        rcases hshape with ⟨e, he2, _hnid, hagents⟩ | ⟨evs, agn, hok2, hdisj, hidn, haln, hmaxn, hagen⟩
        · -- rejected: the agent may still have been partially mutated
          rw [processRequests_cons_error he2]
          have hmid : ∃ agm,
              agentById (Vm.applyAction w req intents snap).1.agents i = some agm ∧
              agm.id = ag0.id ∧ agm.alive = true ∧ agm.maxAge = ag0.maxAge ∧
              agm.age = ag0.age := by
            rcases hagents with h1 | ⟨zs, h2⟩ | ⟨ag1, h3, hid1, hal1, hmax1, hage1⟩
            · exact ⟨ag0, by rw [h1]; exact hfind, rfl, halive, rfl, rfl⟩
            · exact ⟨{ ag0 with discoveredZones := zs },
                by rw [h2, ← hagid]; exact agentById_updAgents_self hfind2 rfl,
                rfl, halive, rfl, rfl⟩
            · refine ⟨ag1, ?_, hid1, by rw [hal1]; exact halive, hmax1, hage1⟩
              rw [h3, ← hagid]
              apply agentById_updAgents_self hfind2
              exact hid1
          obtain ⟨agm, hfm, hidm, halm, hmaxm, hagem⟩ := hmid
          obtain ⟨ag', hf', hid', hal', hmax', hlo, hhi, _himp⟩ :=
            ih _ i agm hfm halm
          refine ⟨ag', hf', by rw [hid', hidm], hal', by rw [hmax', hmaxm],
            by rw [← hagem]; exact hlo, ?_, ?_⟩
          · calc ag'.age ≤ agm.age + (rest.filter (fun r => decide (r.agentId = i))).length := hhi
              _ = ag0.age + (rest.filter (fun r => decide (r.agentId = i))).length := by
                  rw [hagem]
              _ ≤ _ := by simp [List.filter_cons, hri]
          · intro hnorej
            exact absurd hri (hnorej ⟨req, e⟩ (List.mem_cons_self _ _))
        · -- the agent's own request succeeded: age goes up by exactly one
          rw [processRequests_cons_ok hok2]
          have hfmid : agentById (Vm.applyAction w req intents snap).1.agents i =
              some agn := by
            rcases hdisj with ⟨hagents, _⟩ | ⟨c, hagents, _⟩
            · rw [hagents, ← hagid]
              apply agentById_updAgents_self hfind2
              exact hidn
            · rw [hagents, ← hagid]
              apply agentById_append_left
              apply agentById_updAgents_self hfind2
              exact hidn
          obtain ⟨ag', hf', hid', hal', hmax', hlo, hhi, himp⟩ :=
            ih _ i agn hfmid (by rw [haln]; exact halive)
          refine ⟨ag', hf', by rw [hid', hidn], hal', by rw [hmax', hmaxn], ?_, ?_, ?_⟩
          · calc ag0.age ≤ agn.age := by rw [hagen]; exact Nat.le_succ _
              _ ≤ ag'.age := hlo
          · calc ag'.age ≤ agn.age + (rest.filter (fun r => decide (r.agentId = i))).length := hhi
              _ = ag0.age + 1 + (rest.filter (fun r => decide (r.agentId = i))).length := by
                  rw [hagen]
              _ = ag0.age + (1 + (rest.filter (fun r => decide (r.agentId = i))).length) := by
                  omega
              _ = _ := by simp [List.filter_cons, hri]; omega
          · intro hnorej
            have := himp hnorej
            calc ag0.age + ((req :: rest).filter (fun r => decide (r.agentId = i))).length
                = ag0.age + 1 + (rest.filter (fun r => decide (r.agentId = i))).length := by
                  simp [List.filter_cons, hri]; omega
              _ = agn.age + (rest.filter (fun r => decide (r.agentId = i))).length := by
                  rw [hagen]
              _ ≤ ag'.age := this
      · -- someone else's request: this agent's record is untouched
        have hfmid : agentById (Vm.applyAction w req intents snap).1.agents i =
            some ag := by
          rcases hshape with ⟨e, _he2, _hnid, hagents⟩ |
            ⟨evs, agn, _hok2, hdisj, hidn, _haln, _hmaxn, _hagen⟩
          · rcases hagents with h1 | ⟨zs, h2⟩ | ⟨ag1, h3, hid1, _, _, _⟩
            · rw [h1]; exact hfind
            · rw [h2]
              rw [agentById_updAgents_ne (hag0id ▸ fun hc => hri (hc ▸ rfl) : i ≠ ag0.id)
                (fun b hb => by simpa using hb)]
              · exact hfind
            · rw [h3]
              rw [agentById_updAgents_ne (hag0id ▸ fun hc => hri (hc ▸ rfl) : i ≠ ag0.id)
                (fun b _hb => by rw [hid1])]
              exact hfind
          · have hne : i ≠ ag0.id := hag0id ▸ fun hc => hri (hc ▸ rfl)
            rcases hdisj with ⟨hagents, _⟩ | ⟨c, hagents, _⟩
            · rw [hagents, agentById_updAgents_ne hne (fun b _hb => hidn)]
              exact hfind
            · rw [hagents]
              exact agentById_append_left
                ((agentById_updAgents_ne hne (fun b _hb => hidn)).trans hfind)
        rcases hexcl : (Vm.applyAction w req intents snap).2 with e | evs
        · rw [processRequests_cons_error hexcl]
          obtain ⟨ag', hf', hid', hal', hmax', hlo, hhi, himp⟩ := ih _ i ag hfmid halive
          refine ⟨ag', hf', hid', hal', hmax', hlo, ?_, ?_⟩
          · simpa [List.filter_cons, hri] using hhi
          · intro hnorej
            have := himp (fun rej hm => hnorej rej (List.mem_cons_of_mem _ hm))
            simpa [List.filter_cons, hri] using this
        · rw [processRequests_cons_ok hexcl]
          obtain ⟨ag', hf', hid', hal', hmax', hlo, hhi, himp⟩ := ih _ i ag hfmid halive
          refine ⟨ag', hf', hid', hal', hmax', hlo, ?_, ?_⟩
          · simpa [List.filter_cons, hri] using hhi
          · intro hnorej
            have := himp hnorej
            simpa [List.filter_cons, hri] using this

end Harimu

namespace Harimu

lemma occLookup_none_iff {occ : List (Position × AgentId)} {p : Position} :
    occLookup occ p = none ↔ ∀ e ∈ occ, e.1 ≠ p := by
  unfold occLookup
  simp [List.find?_eq_none]

lemma occRemove_self (occ : List (Position × AgentId)) (p : Position) :
    occLookup (occRemove occ p) p = none := by
  rw [occLookup_none_iff]
  intro e he
  have := List.mem_filter.mp he
  simpa using this.2

lemma occLookup_occRemove_none {occ : List (Position × AgentId)} {p q : Position}
    (h : occLookup occ p = none) : occLookup (occRemove occ q) p = none := by
  rw [occLookup_none_iff] at h ⊢
  intro e he
  exact h e (List.mem_filter.mp he).1

lemma markAgentDead_occ_none {w : World} {p : Position} {d : AgentId}
    {reason : DeathReason} (h : occLookup w.occupied p = none) :
    occLookup (Vm.markAgentDead w d reason).1.occupied p = none := by
  unfold Vm.markAgentDead
  split
  · exact h
  · split
    · exact h
    · exact occLookup_occRemove_none h

lemma enforceAgeList_occ_none {p : Position} :
    ∀ (ds : List AgentId) (w : World), occLookup w.occupied p = none →
      occLookup (enforceAgeList w ds).1.occupied p = none := by
  intro ds
  induction ds with
  | nil => intro w h; exact h
  | cons d rest ih =>
    intro w h
    exact ih _ (markAgentDead_occ_none h)

/-- Once an agent is dead its record and its vacated cell are stable through
the age-enforcement loop. -/
lemma enforceAgeList_dead_stable {i : AgentId} {ag : Agent} (hal : ag.alive = false) :
    ∀ (ds : List AgentId) (w : World), agentById w.agents i = some ag →
      agentById (enforceAgeList w ds).1.agents i = some ag := by
  intro ds
  induction ds with
  | nil => intro w h; exact h
  | cons d rest ih =>
    intro w h
    apply ih
    unfold Vm.markAgentDead
    split
    · exact h
    · rename_i agd hfd
      split
      · exact h
      · rename_i halived
        by_cases hdi : d = i
        · subst hdi
          have : agd = ag := Option.some.inj (hfd.symm.trans h)
          subst this
          rw [hal] at halived
          simp at halived
        · rw [agentById_updAgents_ne (fun hc => hdi hc.symm) (fun b hb => by simpa)]
          exact h

/-- An alive agent whose id is in the doomed list ends dead (with the death
event emitted) and its cell vacated. -/
lemma enforceAgeList_marks {i : AgentId} :
    ∀ (ds : List AgentId) (w : World) (ag : Agent),
      agentById w.agents i = some ag → ag.alive = true → i ∈ ds →
      agentById (enforceAgeList w ds).1.agents i = some { ag with alive := false } ∧
      Event.agentDied i DeathReason.age ∈ (enforceAgeList w ds).2 ∧
      occLookup (enforceAgeList w ds).1.occupied ag.position = none := by
  intro ds
  induction ds with
  | nil => intro w ag _ _ hmem; simp at hmem
  | cons d rest ih =>
    intro w ag hfind halive hmem
    by_cases hdi : d = i
    · subst hdi
      have hmark : Vm.markAgentDead w d DeathReason.age =
          ({ w with
              agents := (updAgents w.agents d (fun a => { a with alive := false })),
              occupied := occRemove w.occupied ag.position },
            some (.agentDied d DeathReason.age)) := by
        unfold Vm.markAgentDead
        rw [hfind]
        simp [halive]
      have hdead : agentById (Vm.markAgentDead w d DeathReason.age).1.agents d =
          some { ag with alive := false } := by
        rw [hmark]
        exact agentById_updAgents_self hfind rfl
      refine ⟨?_, ?_, ?_⟩
      · show agentById (enforceAgeList (Vm.markAgentDead w d DeathReason.age).1 rest).1.agents d = _
        exact enforceAgeList_dead_stable rfl rest _ hdead
      · show Event.agentDied d DeathReason.age ∈
          (match (Vm.markAgentDead w d DeathReason.age).2 with
            | some e => [e] | none => []) ++ (enforceAgeList (Vm.markAgentDead w d DeathReason.age).1 rest).2
        rw [hmark]
        simp
      · show occLookup (enforceAgeList (Vm.markAgentDead w d DeathReason.age).1 rest).1.occupied ag.position = none
        apply enforceAgeList_occ_none
        rw [hmark]
        exact occRemove_self _ _
    · have hrest : i ∈ rest := by
        rcases List.mem_cons.mp hmem with h | h
        · exact absurd h.symm hdi
        · exact h
      have hkeep : agentById (Vm.markAgentDead w d DeathReason.age).1.agents i = some ag := by
        unfold Vm.markAgentDead
        split
        · exact hfind
        · split
          · exact hfind
          · rw [agentById_updAgents_ne (fun hc => hdi hc.symm) (fun b hb => by simpa)]
            exact hfind
      obtain ⟨h1, h2, h3⟩ := ih (Vm.markAgentDead w d DeathReason.age).1 ag hkeep halive hrest
      exact ⟨h1, List.mem_append_right _ h2, h3⟩

end Harimu

namespace Harimu

lemma nodup_id_unique {l : List Agent} (hnd : (l.map (·.id)).Nodup) {a b : Agent}
    (ha : a ∈ l) (hb : b ∈ l) (hid : a.id = b.id) : a = b := by
  exact List.inj_on_of_nodup_map hnd ha hb hid

lemma markAgentDead_map_id (w : World) (d : AgentId) (reason : DeathReason) :
    (Vm.markAgentDead w d reason).1.agents.map (·.id) = w.agents.map (·.id) := by
  unfold Vm.markAgentDead
  split
  · rfl
  · split
    · rfl
    · exact updAgents_map_id (fun b _ => rfl)

/-- After the age-enforcement loop, no alive agent is at or beyond its maximum
age, provided every violator's id was collected in the doomed list. -/
lemma enforceAgeList_age_bound :
    ∀ (ds : List AgentId) (w : World),
      (w.agents.map (·.id)).Nodup →
      (∀ a ∈ w.agents, a.alive = true → a.maxAge ≤ a.age → a.id ∈ ds) →
      ∀ a ∈ (enforceAgeList w ds).1.agents, a.alive = true → a.age < a.maxAge := by
  intro ds
  induction ds with
  | nil =>
    intro w _hnd hdoom a ha hal
    by_cases hma : a.maxAge ≤ a.age
    · exact absurd (hdoom a ha hal hma) (List.not_mem_nil _)
    · omega
  | cons d rest ih =>
    intro w hnd hdoom
    show ∀ a ∈ (enforceAgeList (Vm.markAgentDead w d DeathReason.age).1 rest).1.agents, _
    apply ih
    · rw [markAgentDead_map_id]
      exact hnd
    · intro a' ha' hal' hma'
      unfold Vm.markAgentDead at ha'
      rcases hfd : agentById w.agents d with _ | agd
      · rw [hfd] at ha'
        simp only at ha'
        have hmem := hdoom a' ha' hal' hma'
        rcases List.mem_cons.mp hmem with h | h
        · exfalso
          apply agentById_isSome_of_mem ha'
          rw [h]
          exact hfd
        · exact h
      · rw [hfd] at ha'
        by_cases halived : agd.alive = false
        · simp only [halived, if_pos rfl] at ha'
          have hmem := hdoom a' ha' hal' hma'
          rcases List.mem_cons.mp hmem with h | h
          · obtain ⟨hagdm, hagdid⟩ := agentById_mem hfd
            have : a' = agd := nodup_id_unique hnd ha' hagdm (h.trans hagdid.symm)
            rw [this, halived] at hal'
            simp at hal'
          · exact h
        · simp only [halived, if_neg] at ha'
          simp only [Bool.not_eq_false] at halived
          obtain ⟨b, hbmem, hbeq⟩ := List.mem_map.mp ha'
          by_cases hbd : b.id = d
          · rw [if_pos hbd] at hbeq
            rw [← hbeq] at hal'
            simp at hal'
          · rw [if_neg hbd] at hbeq
            subst hbeq
            have hmem := hdoom b hbmem hal' hma'
            rcases List.mem_cons.mp hmem with h | h
            · exact absurd h hbd
            · exact h

end Harimu

namespace Harimu

/-- The ids of agents across `Vm::apply_action`: either unchanged with the same
next id, or extended with exactly the freshly allocated id. -/
lemma applyAction_ids (w : World) (req : ActionRequest)
    (intents : List (AgentId × AgentId)) (snap : List (AgentId × Position × Bool)) :
    ((Vm.applyAction w req intents snap).1.agents.map (·.id) = w.agents.map (·.id) ∧
      (Vm.applyAction w req intents snap).1.nextAgentId = w.nextAgentId) ∨
    ((Vm.applyAction w req intents snap).1.agents.map (·.id) =
        w.agents.map (·.id) ++ [w.nextAgentId] ∧
      (Vm.applyAction w req intents snap).1.nextAgentId = w.nextAgentId + 1) := by
  rcases applyAction_shape w req intents snap with ⟨e, heq⟩ |
    ⟨ag, hfind, _halive, hshape⟩
  · left
    rw [heq]
    exact ⟨rfl, rfl⟩
  · rcases hshape with ⟨e, _he2, hnid, hagents⟩ |
      ⟨evs, agn, _hok2, hdisj, hidn, _haln, _hmaxn, _hagen⟩
    · left
      refine ⟨?_, hnid⟩
      rcases hagents with h1 | ⟨zs, h2⟩ | ⟨ag1, h3, hid1, _, _, _⟩
      · rw [h1]
      · rw [h2]
        exact updAgents_map_id (fun b _ => rfl)
      · rw [h3]
        exact updAgents_map_id (fun b hb => by rw [hid1, hb])
    · rcases hdisj with ⟨hagents, hnid⟩ | ⟨c, hagents, hcid, _, _, _, hnid⟩
      · left
        refine ⟨?_, hnid⟩
        rw [hagents]
        exact updAgents_map_id (fun b hb => by rw [hidn, hb])
      · right
        refine ⟨?_, hnid⟩
        rw [hagents, List.map_append, updAgents_map_id (fun b hb => by rw [hidn, hb])]
        simp [hcid]

/-- Ids stay unique and below the id counter through the request loop. -/
lemma processRequests_agentsWF (intents : List (AgentId × AgentId))
    (snap : List (AgentId × Position × Bool)) :
    ∀ (reqs : List ActionRequest) (w : World),
      (∀ a ∈ w.agents, a.id < w.nextAgentId) → (w.agents.map (·.id)).Nodup →
      (∀ a ∈ (Vm.processRequests w reqs intents snap).1.agents,
        a.id < (Vm.processRequests w reqs intents snap).1.nextAgentId) ∧
      ((Vm.processRequests w reqs intents snap).1.agents.map (·.id)).Nodup := by
  intro reqs
  induction reqs with
  | nil => intro w hb hn; exact ⟨hb, hn⟩
  | cons req rest ih =>
    intro w hb hn
    have hmid : (∀ a ∈ (Vm.applyAction w req intents snap).1.agents,
        a.id < (Vm.applyAction w req intents snap).1.nextAgentId) ∧
        ((Vm.applyAction w req intents snap).1.agents.map (·.id)).Nodup := by
      rcases applyAction_ids w req intents snap with ⟨hmap, hnid⟩ | ⟨hmap, hnid⟩
      · constructor
        · intro a ha
          have : a.id ∈ w.agents.map (·.id) := by
            rw [← hmap]
            exact List.mem_map_of_mem _ ha
          obtain ⟨b, hbmem, hbid⟩ := List.mem_map.mp this
          rw [hnid, ← hbid]
          exact hb b hbmem
        · rw [hmap]
          exact hn
      · constructor
        · intro a ha
          have : a.id ∈ w.agents.map (·.id) ++ [w.nextAgentId] := by
            rw [← hmap]
            exact List.mem_map_of_mem _ ha
          rw [hnid]
          rcases List.mem_append.mp this with h | h
          · obtain ⟨b, hbmem, hbid⟩ := List.mem_map.mp h
            have hblt := hb b hbmem
            exact hbid ▸ Nat.lt_succ_of_lt hblt
          · simp at h
            rw [h]
            exact Nat.lt_succ_self _
        · rw [hmap]
          refine List.Nodup.append hn (List.nodup_singleton _) ?_
          intro x hx hx2
          simp at hx2
          obtain ⟨b, hbmem, hbid⟩ := List.mem_map.mp hx
          subst hx2
          have hblt := hb b hbmem
          exact absurd hbid (Nat.ne_of_lt hblt)
    rcases hexcl : (Vm.applyAction w req intents snap).2 with e | evs
    · rw [processRequests_cons_error hexcl]
      exact ih _ hmid.1 hmid.2
    · rw [processRequests_cons_ok hexcl]
      exact ih _ hmid.1 hmid.2

@[simp] lemma rechargeQiSources_agents (w : World) :
    w.rechargeQiSources.agents = w.agents := rfl

@[simp] lemma rechargeQiSources_nextAgentId (w : World) :
    w.rechargeQiSources.nextAgentId = w.nextAgentId := rfl

@[simp] lemma rechargeQiSources_occupied (w : World) :
    w.rechargeQiSources.occupied = w.occupied := rfl

lemma step_agents_eq (w : World) (reqs : List ActionRequest) :
    (Vm.step w reqs).1.agents =
      (Vm.enforceAgeLimits (Vm.processRequests w.rechargeQiSources reqs
        (collectIntents reqs)
        (w.rechargeQiSources.agents.map (fun a => (a.id, a.position, a.alive)))).1).1.agents := rfl

lemma step_occupied_eq (w : World) (reqs : List ActionRequest) :
    (Vm.step w reqs).1.occupied =
      (Vm.enforceAgeLimits (Vm.processRequests w.rechargeQiSources reqs
        (collectIntents reqs)
        (w.rechargeQiSources.agents.map (fun a => (a.id, a.position, a.alive)))).1).1.occupied := rfl

lemma step_rejections_eq (w : World) (reqs : List ActionRequest) :
    (Vm.step w reqs).2.rejections =
      (Vm.processRequests w.rechargeQiSources reqs (collectIntents reqs)
        (w.rechargeQiSources.agents.map (fun a => (a.id, a.position, a.alive)))).2.2 := rfl

lemma step_events_eq (w : World) (reqs : List ActionRequest) :
    (Vm.step w reqs).2.events =
      Event.tickStarted (w.tick + 1) ::
        ((Vm.processRequests w.rechargeQiSources reqs (collectIntents reqs)
            (w.rechargeQiSources.agents.map (fun a => (a.id, a.position, a.alive)))).2.1 ++
          (Vm.enforceAgeLimits (Vm.processRequests w.rechargeQiSources reqs
            (collectIntents reqs)
            (w.rechargeQiSources.agents.map (fun a => (a.id, a.position, a.alive)))).1).2 ++
          [Event.tickCompleted (w.tick + 1)]) := rfl

end Harimu

namespace Harimu

lemma enforceAgeLimits_eq (w : World) :
    Vm.enforceAgeLimits w = enforceAgeList w
      ((w.agents.filter (fun a => a.alive && decide (a.maxAge ≤ a.age))).map (·.id)) := rfl

/-- C6: an alive agent at `age == max_age - 1` whose single request in the
tick succeeds ends the same `Vm::step` call at `age == max_age`, marked dead
with `DeathReason::Age` and its cell vacated; and after age enforcement no
alive agent has `age >= max_age`. -/
theorem c6_age_limit_enforced (w : World) (reqs : List ActionRequest)
    (i : AgentId) (ag : Agent)
    (hnodup : (w.agents.map (·.id)).Nodup)
    (hbound : ∀ a ∈ w.agents, a.id < w.nextAgentId)
    (hfind : agentById w.agents i = some ag) (halive : ag.alive = true)
    (hage : ag.age + 1 = ag.maxAge)
    (hone : (reqs.filter (fun r => decide (r.agentId = i))).length = 1)
    (hnorej : ∀ rej ∈ (Vm.step w reqs).2.rejections, rej.request.agentId ≠ i) :
    ((agentById (Vm.step w reqs).1.agents i).map (fun a => (a.alive, a.age, a.maxAge)) =
        some (false, ag.maxAge, ag.maxAge) ∧
      Event.agentDied i DeathReason.age ∈ (Vm.step w reqs).2.events ∧
      (agentById (Vm.step w reqs).1.agents i).map
        (fun a => occLookup (Vm.step w reqs).1.occupied a.position) = some none) ∧
    (∀ b ∈ (Vm.step w reqs).1.agents, b.alive = true → b.age < b.maxAge) := by
  have hfind1 : agentById w.rechargeQiSources.agents i = some ag := by
    rw [rechargeQiSources_agents]; exact hfind
  obtain ⟨agf, hff, hfid, hfal, hfmax, hlo, hhi, himp⟩ :=
    processRequests_tracks (collectIntents reqs)
      (w.rechargeQiSources.agents.map (fun a => (a.id, a.position, a.alive)))
      reqs w.rechargeQiSources i ag hfind1 halive
  have hnorej' := step_rejections_eq w reqs ▸ hnorej
  have hexact := himp hnorej'
  rw [hone] at hexact hhi
  have hagfage : agf.age = ag.maxAge := by omega
  obtain ⟨hbound2, hnodup2⟩ :=
    processRequests_agentsWF (collectIntents reqs)
      (w.rechargeQiSources.agents.map (fun a => (a.id, a.position, a.alive)))
      reqs w.rechargeQiSources
      (by rw [rechargeQiSources_agents, rechargeQiSources_nextAgentId]; exact hbound)
      (by rw [rechargeQiSources_agents]; exact hnodup)
  obtain ⟨hagfmem, hagfid⟩ := agentById_mem hff
  have hdoom : i ∈ (((Vm.processRequests w.rechargeQiSources reqs (collectIntents reqs)
      (w.rechargeQiSources.agents.map (fun a => (a.id, a.position, a.alive)))).1.agents.filter
        (fun a => a.alive && decide (a.maxAge ≤ a.age))).map (·.id)) := by
    refine List.mem_map.mpr ⟨agf, List.mem_filter.mpr ⟨hagfmem, ?_⟩, hagfid⟩
    simp [hfal, hagfage, hfmax]
  obtain ⟨hm1, hm2, hm3⟩ :=
    enforceAgeList_marks _ _ agf hff hfal hdoom
  refine ⟨⟨?_, ?_, ?_⟩, ?_⟩
  · rw [step_agents_eq, enforceAgeLimits_eq, hm1]
    simp only [Option.map_some']
    rw [show ({ agf with alive := false } : Agent).age = agf.age from rfl,
      show ({ agf with alive := false } : Agent).maxAge = agf.maxAge from rfl,
      hagfage, hfmax]
  · rw [step_events_eq]
    apply List.mem_cons_of_mem
    apply List.mem_append_left
    apply List.mem_append_right
    rw [enforceAgeLimits_eq]
    exact hm2
  · rw [step_agents_eq, step_occupied_eq, enforceAgeLimits_eq, hm1]
    simp only [Option.map_some']
    rw [show ({ agf with alive := false } : Agent).position = agf.position from rfl, hm3]
  · intro b hb hbal
    rw [step_agents_eq, enforceAgeLimits_eq] at hb
    refine enforceAgeList_age_bound _ _ hnodup2 ?_ b hb hbal
    intro a ha hal hma
    exact List.mem_map.mpr ⟨a, List.mem_filter.mpr ⟨ha, by simp [hal, hma]⟩, rfl⟩

end Harimu

namespace Harimu

/-- C6 witness: a fresh agent with `max_age = 1` (so `age == max_age - 1`)
idles once and dies of age in the same tick. -/
theorem c6_age_limit_enforced_witness :
    (agentById (Vm.step (World.new.spawnAgentWithAge "Eph" 5 Position.origin 1).2
        [⟨1, .idle⟩]).1.agents 1).map (fun a => (a.alive, a.age, a.maxAge)) =
      some (false, 1, 1) ∧
    Event.agentDied 1 DeathReason.age ∈
      (Vm.step (World.new.spawnAgentWithAge "Eph" 5 Position.origin 1).2
        [⟨1, .idle⟩]).2.events ∧
    (agentById (Vm.step (World.new.spawnAgentWithAge "Eph" 5 Position.origin 1).2
        [⟨1, .idle⟩]).1.agents 1).map
      (fun a => occLookup (Vm.step (World.new.spawnAgentWithAge "Eph" 5
        Position.origin 1).2 [⟨1, .idle⟩]).1.occupied a.position) = some none :=
  (c6_age_limit_enforced (World.new.spawnAgentWithAge "Eph" 5 Position.origin 1).2
    [⟨1, .idle⟩] 1
    { id := 1, name := "Eph", qi := 5, transistors := 0,
      position := Position.origin, alive := true, age := 0, maxAge := 1,
      discoveredZones := [Position.origin.zone] }
    (by decide) (by decide) (by decide) rfl rfl (by decide) (by decide)).1

/-- C8: a `Move` whose Chebyshev magnitude exceeds `MAX_MOVE_RADIUS` is
rejected with `MoveOutOfRange` before any mutation, so the agent's Qi balance
(and the whole world) is unchanged by the rejected request. -/
theorem c8_move_out_of_range (w : World) (intents : List (AgentId × AgentId))
    (snap : List (AgentId × Position × Bool)) (i : AgentId) (dx dy dz : Int)
    (ag : Agent) (hfind : agentById w.agents i = some ag)
    (halive : ag.alive = true)
    (hrange : MAX_MOVE_RADIUS < max (max |dx| |dy|) |dz|) :
    Vm.applyAction w ⟨i, .move dx dy dz⟩ intents snap =
      (w, .error (.moveOutOfRange ag.id dx dy dz)) := by
  simp [Vm.applyAction, Vm.applyMove, hfind, halive, hrange]

/-- C8 witness: a move of Chebyshev magnitude 4 is rejected and the world is
untouched. -/
theorem c8_move_out_of_range_witness :
    Vm.applyAction (World.new.spawnAgent "Strider" 4 Position.origin).2
      ⟨1, .move 4 0 0⟩ [] [] =
      ((World.new.spawnAgent "Strider" 4 Position.origin).2,
        .error (.moveOutOfRange 1 4 0 0)) :=
  c8_move_out_of_range (World.new.spawnAgent "Strider" 4 Position.origin).2 [] []
    1 4 0 0
    { id := 1, name := "Strider", qi := 4, transistors := 0,
      position := Position.origin, alive := true, age := 0,
      maxAge := DEFAULT_MAX_AGENT_AGE, discoveredZones := [Position.origin.zone] }
    (by decide) rfl (by decide)

lemma applyAction_maxAge_pos (w : World) (req : ActionRequest)
    (intents : List (AgentId × AgentId)) (snap : List (AgentId × Position × Bool))
    (h : ∀ a ∈ w.agents, 1 ≤ a.maxAge) :
    ∀ a ∈ (Vm.applyAction w req intents snap).1.agents, 1 ≤ a.maxAge := by
  rcases applyAction_shape w req intents snap with ⟨e, heq⟩ |
    ⟨ag, hfind, _halive, hshape⟩
  · rw [heq]; exact h
  · obtain ⟨hagmem, _⟩ := agentById_mem hfind
    rcases hshape with ⟨e, _he2, _hnid, hagents⟩ |
      ⟨evs, agn, _hok2, hdisj, _hidn, _haln, hmaxn, _hagen⟩
    · rcases hagents with h1 | ⟨zs, h2⟩ | ⟨ag1, h3, _hid1, _hal1, hmax1, _hage1⟩
      · rw [h1]; exact h
      · rw [h2]
        exact forall_mem_updAgents h (fun a ha _ => h a ha)
      · rw [h3]
        exact forall_mem_updAgents h (fun a _ _ => hmax1 ▸ h ag hagmem)
    · rcases hdisj with ⟨hagents, _⟩ | ⟨c, hagents, _hcid, _hcal, _hcage, hcmax, _⟩
      · rw [hagents]
        exact forall_mem_updAgents h (fun a _ _ => hmaxn ▸ h ag hagmem)
      · rw [hagents]
        intro a ha
        rcases List.mem_append.mp ha with hl | hr
        · exact forall_mem_updAgents h (fun a _ _ => hmaxn ▸ h ag hagmem) a hl
        · rw [List.mem_singleton.mp hr, hcmax]
          decide
    
lemma processRequests_maxAge_pos (intents : List (AgentId × AgentId))
    (snap : List (AgentId × Position × Bool)) :
    ∀ (reqs : List ActionRequest) (w : World),
      (∀ a ∈ w.agents, 1 ≤ a.maxAge) →
      ∀ a ∈ (Vm.processRequests w reqs intents snap).1.agents, 1 ≤ a.maxAge := by
  intro reqs
  induction reqs with
  | nil => intro w h; exact h
  | cons req rest ih =>
    intro w h
    have hmid := applyAction_maxAge_pos w req intents snap h
    rcases hexcl : (Vm.applyAction w req intents snap).2 with e | evs
    · rw [processRequests_cons_error hexcl]
      exact ih _ hmid
    · rw [processRequests_cons_ok hexcl]
      exact ih _ hmid

lemma enforceAgeList_maxAge_pos :
    ∀ (ds : List AgentId) (w : World),
      (∀ a ∈ w.agents, 1 ≤ a.maxAge) →
      ∀ a ∈ (enforceAgeList w ds).1.agents, 1 ≤ a.maxAge := by
  intro ds
  induction ds with
  | nil => intro w h; exact h
  | cons d rest ih =>
    intro w h
    apply ih
    unfold Vm.markAgentDead
    split
    · exact h
    · split
      · exact h
      · exact forall_mem_updAgents h (fun a ha _ => h a ha)

lemma spawnAgentWithAge_snd_agents (w : World) (n : String) (q : Nat) (p : Position)
    (m : Nat) :
    (w.spawnAgentWithAge n q p m).2.agents = w.agents ++
      [{ id := w.nextAgentId, name := n, qi := q, transistors := 0,
         position := findFree w.occupied p, alive := true, age := 0,
         maxAge := max m 1, discoveredZones := [(findFree w.occupied p).zone] }] := rfl

lemma spawnAgentWithAge_maxAge_pos (w : World) (n : String) (q : Nat)
    (p : Position) (m : Nat) (h : ∀ a ∈ w.agents, 1 ≤ a.maxAge) :
    ∀ a ∈ (w.spawnAgentWithAge n q p m).2.agents, 1 ≤ a.maxAge := by
  intro a ha
  rcases List.mem_append.mp ha with hl | hr
  · exact h a hl
  · rw [List.mem_singleton.mp hr]
    exact le_max_right _ _

/-- C10: `spawn_agent_with_age` clamps the requested lifespan to at least 1
(`max_age == 0` yields an agent with `max_age == 1`), `spawn_agent` defaults
the lifespan to `DEFAULT_MAX_AGENT_AGE = 112`, and no operation — spawning or
`Vm::step` — ever produces an agent with `max_age == 0`. -/
theorem c10_spawn_clamps_max_age :
    (∀ (w : World) (n : String) (q : Nat) (p : Position),
      ((w.spawnAgentWithAge n q p 0).2.agents.getLast?).map (·.maxAge) = some 1) ∧
    (∀ (w : World) (n : String) (q : Nat) (p : Position) (m : Nat),
      ((w.spawnAgentWithAge n q p m).2.agents.getLast?).map (·.maxAge) =
        some (max m 1) ∧ 1 ≤ max m 1) ∧
    (∀ (w : World) (n : String) (q : Nat) (p : Position),
      w.spawnAgent n q p = w.spawnAgentWithAge n q p DEFAULT_MAX_AGENT_AGE) ∧
    DEFAULT_MAX_AGENT_AGE = 112 ∧
    (∀ (w : World) (reqs : List ActionRequest),
      (∀ a ∈ w.agents, 1 ≤ a.maxAge) →
      ∀ a ∈ (Vm.step w reqs).1.agents, 1 ≤ a.maxAge) ∧
    (∀ (w : World) (n : String) (q : Nat) (p : Position) (m : Nat),
      (∀ a ∈ w.agents, 1 ≤ a.maxAge) →
      ∀ a ∈ (w.spawnAgentWithAge n q p m).2.agents, 1 ≤ a.maxAge) := by
  refine ⟨?_, ?_, fun _ _ _ _ => rfl, rfl, ?_, spawnAgentWithAge_maxAge_pos⟩
  · intro w n q p
    rw [spawnAgentWithAge_snd_agents, List.getLast?_concat]
    rfl
  · intro w n q p m
    rw [spawnAgentWithAge_snd_agents, List.getLast?_concat]
    exact ⟨rfl, le_max_right _ _⟩
  · intro w reqs h a ha
    rw [step_agents_eq, enforceAgeLimits_eq] at ha
    refine enforceAgeList_maxAge_pos _ _ ?_ a ha
    apply processRequests_maxAge_pos
    rw [rechargeQiSources_agents]
    exact h

/-- C10 witness: a spawn requesting `max_age = 0` produces an agent with
`max_age = 1`, and that agent still has a positive `max_age` after a tick. -/
theorem c10_spawn_clamps_max_age_witness :
    ((World.new.spawnAgentWithAge "Eph" 5 Position.origin 0).2.agents.getLast?).map
      (·.maxAge) = some 1 ∧
    1 ≤ ({ id := 1, name := "Eph", qi := 5, transistors := 0,
           position := Position.origin, alive := true, age := 0, maxAge := 1,
           discoveredZones := [Position.origin.zone] } : Agent).maxAge :=
  ⟨c10_spawn_clamps_max_age.1 World.new "Eph" 5 Position.origin,
   c10_spawn_clamps_max_age.2.2.2.2.1
     (World.new.spawnAgentWithAge "Eph" 5 Position.origin 0).2 [] (by decide)
     { id := 1, name := "Eph", qi := 5, transistors := 0,
       position := Position.origin, alive := true, age := 0, maxAge := 1,
       discoveredZones := [Position.origin.zone] } (by decide)⟩

end Harimu

namespace Harimu

lemma rechargeList_append (l₁ l₂ : List QiSource) (budget pool : Nat) :
    rechargeList (l₁ ++ l₂) budget pool =
      ((rechargeList l₁ budget pool).1 ++
        (rechargeList l₂ (rechargeList l₁ budget pool).2.1
          (rechargeList l₁ budget pool).2.2).1,
       (rechargeList l₂ (rechargeList l₁ budget pool).2.1
          (rechargeList l₁ budget pool).2.2).2.1,
       (rechargeList l₂ (rechargeList l₁ budget pool).2.1
          (rechargeList l₁ budget pool).2.2).2.2) := by
  induction l₁ generalizing budget pool with
  | nil => rfl
  | cons src rest ih =>
    simp only [List.cons_append, rechargeList, List.append_eq]
    rw [ih]

/-- A full source (current = capacity, a genuine u32 value) is untouched by
one recharge iteration, and neither the budget nor the pool moves. -/
lemma rechargeSource_full {src : QiSource} (hfull : src.current = src.capacity)
    (hcap : src.capacity ≤ u32Max) (budget pool : Nat) :
    rechargeSource src budget pool = (src, budget, pool) := by
  unfold rechargeSource
  by_cases hk : src.ore ≠ OreKind.qi
  · rw [if_pos hk]
    have h2 : src.capacity ≤ min (src.capacity + src.rechargePerTick) u32Max :=
      le_min (Nat.le_add_right _ _) hcap
    have hcur : min (satAdd32 src.current src.rechargePerTick) src.capacity =
        src.current := by
      unfold satAdd32
      rw [hfull]
      exact min_eq_right h2
    rw [hcur]
  · rw [if_neg hk]
    rw [if_pos (by rw [hfull]; exact Nat.sub_self _ : src.capacity - src.current = 0)]

lemma seedOreSource_eq (w : World) (ore : OreKind) (pos : Position) (cap r : Nat) :
    Vm.seedOreSource w ore pos cap r =
      (w.nextQiSourceId,
        { w with
            nextQiSourceId := w.nextQiSourceId + 1,
            qiSources := w.qiSources ++
              [{ id := w.nextQiSourceId, ore := ore, position := pos,
                 capacity := cap, current := cap, rechargePerTick := r }] }) := rfl

/-- Whether the tick result contains a `ScanReport` for agent `a`, taken at
position `p` with balance `q`, whose nearby sources include snapshot `s`. -/
def containsScanReportWith (tr : TickResult) (a : AgentId) (p : Position) (q : Nat)
    (s : QiSourceSnapshot) : Bool :=
  tr.events.any (fun e =>
    match e with
    | .scanReport aid pos qi srcs _ =>
      decide (aid = a) && decide (pos = p) && decide (qi = q) &&
        srcs.any (fun t => decide (t = s))
    | _ => false)

lemma applyAction_scan_eq {w : World} {a : AgentId} {agent : Agent}
    (intents : List (AgentId × AgentId)) (snap : List (AgentId × Position × Bool))
    (hfind : agentById w.agents a = some agent) (halive : agent.alive = true) :
    Vm.applyAction w ⟨a, .scan⟩ intents snap =
      ({ w with agents := (updAgents w.agents agent.id
            (fun _a => { agent with age := agent.age + 1 })) },
        .ok [.actionObserved agent.id "scan",
             .scanReport agent.id agent.position agent.qi
               (w.nearbyQiSources agent.position SCAN_RANGE)
               (w.nearbyStructures agent.position SCAN_RANGE)]) := by
  simp [Vm.applyAction, Vm.applyScan, hfind, halive]
  constructor <;> rfl

end Harimu

namespace Harimu

/-- C9: after `seed_ore_source` (which creates the source at
`current = capacity`), a `Scan` in the next `Vm::step` by an alive agent whose
position is within `SCAN_RANGE` of the source yields a `ScanReport`, taken at
the agent's position and Qi balance, whose `nearby_qi_sources` contains the
snapshot with that source's exact id, position, `available = capacity`, and
capacity. -/
theorem c9_seed_scan_roundtrip (w : World) (ore : OreKind) (pos : Position)
    (cap r : Nat) (a : AgentId) (ag : Agent)
    (hfind : agentById w.agents a = some ag) (halive : ag.alive = true)
    (hcap : cap ≤ u32Max)
    (hin : pos.withinRange ag.position SCAN_RANGE = true) :
    containsScanReportWith
      (Vm.step (Vm.seedOreSource w ore pos cap r).2 [⟨a, .scan⟩]).2
      a ag.position ag.qi
      { id := (Vm.seedOreSource w ore pos cap r).1, ore := ore, position := pos,
        available := cap, capacity := cap } = true := by
  have hagid : ag.id = a := (agentById_mem hfind).2
  set w1 := (Vm.seedOreSource w ore pos cap r).2 with hw1
  set w2 := w1.rechargeQiSources with hw2
  have hfind2 : agentById w2.agents a = some ag := by
    rw [hw2, rechargeQiSources_agents]
    exact hfind
  have happ := applyAction_scan_eq (collectIntents [⟨a, .scan⟩])
    (w2.agents.map (fun x => (x.id, x.position, x.alive))) hfind2 halive
  have hok : (Vm.applyAction w2 ⟨a, .scan⟩ (collectIntents [⟨a, .scan⟩])
      (w2.agents.map (fun x => (x.id, x.position, x.alive)))).2 =
      .ok [.actionObserved ag.id "scan",
           .scanReport ag.id ag.position ag.qi
             (w2.nearbyQiSources ag.position SCAN_RANGE)
             (w2.nearbyStructures ag.position SCAN_RANGE)] := by
    rw [happ]
  -- the seeded source survives the recharge untouched
  have hseed : w1.qiSources = w.qiSources ++ [({ id := w.nextQiSourceId, ore := ore, position := pos, capacity := cap, current := cap, rechargePerTick := r } : QiSource)] := by
    rw [hw1, seedOreSource_eq]
  have hsrcs : w2.qiSources =
      (rechargeList w.qiSources
        (match w1.maxQiSupply with
          | some max => max - w1.totalQiSupply
          | none => u64Max) w1.recycledQi).1 ++
      [({ id := w.nextQiSourceId, ore := ore, position := pos, capacity := cap, current := cap, rechargePerTick := r } : QiSource)] := by
    rw [hw2]
    show (World.rechargeQiSources w1).qiSources = _
    simp only [World.rechargeQiSources]
    rw [hseed, rechargeList_append]
    simp only [rechargeList]
    rw [rechargeSource_full rfl hcap]
  have hmem : ({ id := (Vm.seedOreSource w ore pos cap r).1, ore := ore, position := pos, available := cap, capacity := cap } : QiSourceSnapshot) ∈ w2.nearbyQiSources ag.position SCAN_RANGE := by
    unfold World.nearbyQiSources
    apply List.mem_map.mpr
    refine ⟨({ id := w.nextQiSourceId, ore := ore, position := pos, capacity := cap, current := cap, rechargePerTick := r } : QiSource), ?_, ?_⟩
    · apply List.mem_filter.mpr
      refine ⟨?_, hin⟩
      rw [hsrcs]
      exact List.mem_append_right _ (List.mem_singleton.mpr rfl)
    · rw [seedOreSource_eq]
  unfold containsScanReportWith
  apply List.any_eq_true.mpr
  refine ⟨.scanReport ag.id ag.position ag.qi
    (w2.nearbyQiSources ag.position SCAN_RANGE)
    (w2.nearbyStructures ag.position SCAN_RANGE), ?_, ?_⟩
  · rw [step_events_eq]
    apply List.mem_cons_of_mem
    apply List.mem_append_left
    apply List.mem_append_left
    rw [processRequests_cons_ok hok, processRequests_nil]
    simp
  · have hany : (w2.nearbyQiSources ag.position SCAN_RANGE).any
        (fun t => decide (t = ({ id := (Vm.seedOreSource w ore pos cap r).1, ore := ore, position := pos, available := cap, capacity := cap } : QiSourceSnapshot))) = true :=
      List.any_eq_true.mpr ⟨_, hmem, by simp⟩
    simp [hagid, hany]

end Harimu

namespace Harimu

/-- C9 witness: seed a Qi source of capacity 5 at (1,0,0) and scan from the
origin; the report carries the exact snapshot. -/
theorem c9_seed_scan_roundtrip_witness :
    containsScanReportWith
      (Vm.step (Vm.seedOreSource (World.new.spawnAgent "Scout" 3 Position.origin).2
        OreKind.qi ⟨1, 0, 0⟩ 5 0).2 [⟨1, .scan⟩]).2
      1 Position.origin 3
      { id := 1, ore := OreKind.qi, position := ⟨1, 0, 0⟩, available := 5,
        capacity := 5 } = true :=
  c9_seed_scan_roundtrip (World.new.spawnAgent "Scout" 3 Position.origin).2
    OreKind.qi ⟨1, 0, 0⟩ 5 0 1
    { id := 1, name := "Scout", qi := 3, transistors := 0,
      position := Position.origin, alive := true, age := 0,
      maxAge := DEFAULT_MAX_AGENT_AGE, discoveredZones := [Position.origin.zone] }
    (by decide) rfl (by decide) (by decide)

end Harimu

namespace Harimu

lemma nearestOreSource_aux_mem {d : Int} {src : QiSource} {ore : OreKind}
    {position : Position} :
    ∀ (sources : List QiSource) (acc : Option (Int × QiSource)),
      (sources.foldl
        (fun best src =>
          if src.ore ≠ ore then best
          else if src.current = 0 then best
          else if !(position.withinRange src.position SCAN_RANGE) then best
          else
            match best with
            | some (bestDist, bestSrc) =>
              if manhattanDist position src.position < bestDist then
                some (manhattanDist position src.position, src)
              else some (bestDist, bestSrc)
            | none => some (manhattanDist position src.position, src)) acc) =
        some (d, src) →
      (d, src) ∈ (acc.map (fun x => x)).toList ∨
        (src ∈ sources ∧ src.ore = ore ∧ src.current ≠ 0 ∧
          position.withinRange src.position SCAN_RANGE = true) := by
  intro sources
  induction sources with
  | nil =>
    intro acc h
    left
    simp only [List.foldl_nil] at h
    rw [h]
    simp
  | cons x xs ih =>
    intro acc h
    simp only [List.foldl_cons] at h
    by_cases h1 : x.ore ≠ ore
    · rw [if_pos h1] at h
      rcases ih acc h with hl | hr
      · exact Or.inl hl
      · exact Or.inr ⟨List.mem_cons_of_mem _ hr.1, hr.2⟩
    · rw [if_neg h1] at h
      by_cases h2 : x.current = 0
      · rw [if_pos h2] at h
        rcases ih acc h with hl | hr
        · exact Or.inl hl
        · exact Or.inr ⟨List.mem_cons_of_mem _ hr.1, hr.2⟩
      · rw [if_neg h2] at h
        by_cases h3 : position.withinRange x.position SCAN_RANGE = true
        · rw [h3] at h
          simp only [Bool.not_true, Bool.false_eq_true, if_false] at h
          have hx : ¬ x.ore ≠ ore := h1
          push_neg at hx
          rcases acc with _ | ⟨bd, bs⟩
          · simp only at h
            rcases ih _ h with hl | hr
            · have hl' : d = manhattanDist position x.position ∧ src = x := by
                simpa using hl
              obtain ⟨_, hs⟩ := hl'
              exact Or.inr ⟨by rw [hs]; exact List.mem_cons_self _ _, by rw [hs]; exact hx,
                by rw [hs]; exact h2, by rw [hs]; exact h3⟩
            · exact Or.inr ⟨List.mem_cons_of_mem _ hr.1, hr.2⟩
          · simp only at h
            by_cases h4 : manhattanDist position x.position < bd
            · rw [if_pos h4] at h
              rcases ih _ h with hl | hr
              · have hl' : d = manhattanDist position x.position ∧ src = x := by
                  simpa using hl
                obtain ⟨_, hs⟩ := hl'
                exact Or.inr ⟨by rw [hs]; exact List.mem_cons_self _ _, by rw [hs]; exact hx,
                  by rw [hs]; exact h2, by rw [hs]; exact h3⟩
              · exact Or.inr ⟨List.mem_cons_of_mem _ hr.1, hr.2⟩
            · rw [if_neg h4] at h
              rcases ih _ h with hl | hr
              · exact Or.inl hl
              · exact Or.inr ⟨List.mem_cons_of_mem _ hr.1, hr.2⟩
        · have h3' : position.withinRange x.position SCAN_RANGE = false :=
            Bool.not_eq_true _ ▸ (by simpa using h3)
          rw [h3'] at h
          simp only [Bool.not_false, if_true] at h
          rcases ih acc h with hl | hr
          · exact Or.inl hl
          · exact Or.inr ⟨List.mem_cons_of_mem _ hr.1, hr.2⟩

end Harimu

namespace Harimu

lemma nearestOreSource_mem {sources : List QiSource} {ore : OreKind}
    {position : Position} {src : QiSource}
    (h : nearestOreSource sources ore position = some src) :
    src ∈ sources ∧ src.ore = ore ∧ src.current ≠ 0 ∧
      position.withinRange src.position SCAN_RANGE = true := by
  unfold nearestOreSource at h
  obtain ⟨⟨d, s⟩, hfold, hs⟩ := Option.map_eq_some'.mp h
  simp only at hs
  subst hs
  rcases nearestOreSource_aux_mem sources none hfold with hl | hr
  · simp at hl
  · exact hr

lemma find?_source_unique {l : List QiSource} {src : QiSource}
    (hnd : (l.map (·.id)).Nodup) (hmem : src ∈ l) :
    l.find? (fun s => decide (s.id = src.id) && decide (s.ore = src.ore)) = some src := by
  induction l with
  | nil => simp at hmem
  | cons x xs ih =>
    rcases List.mem_cons.mp hmem with rfl | hmem'
    · rw [List.find?_cons_of_pos _ (by simp)]
    · by_cases hx : x.id = src.id
      · have hxe : x = src :=
          List.inj_on_of_nodup_map hnd (List.mem_cons_self _ _)
            (List.mem_cons_of_mem _ hmem') hx
        rw [hxe, List.find?_cons_of_pos _ (by simp)]
      · rw [List.find?_cons_of_neg _ (by simp [hx])]
        exact ih (by simpa using (List.nodup_cons.mp (by simpa using hnd)).2) hmem'

lemma find?_source_props {l : List QiSource} {sid : Nat} {ore : OreKind}
    {src : QiSource}
    (h : l.find? (fun s => decide (s.id = sid) && decide (s.ore = ore)) = some src) :
    src ∈ l ∧ src.id = sid ∧ src.ore = ore := by
  refine ⟨List.mem_of_find?_eq_some h, ?_, ?_⟩ <;>
    have h2 := List.find?_some h <;>
    simp only [Bool.and_eq_true, decide_eq_true_eq] at h2
  · exact h2.1
  · exact h2.2

end Harimu

namespace Harimu

@[simp] lemma recycleQi_qiSources (w : World) (n : Nat) :
    (w.recycleQi n).qiSources = w.qiSources := rfl

/-- C4 (amended): a `HarvestOre` whose selected source is below
`HARVEST_PER_ACTION` is rejected with `OreSourceDepleted` and the world — in
particular the agent's Qi — is untouched; a successful harvest charges exactly
1 Qi, drains exactly `min(current, HARVEST_PER_ACTION)` from that source, and
credits that amount to the agent's matching resource through `gain_ore`'s
u32 saturating add. -/
theorem c4_harvest_amended (w : World) (i : AgentId) (ag : Agent) (ore : OreKind)
    (sid : Nat) (src : QiSource) (intents : List (AgentId × AgentId))
    (snap : List (AgentId × Position × Bool))
    (hfind : agentById w.agents i = some ag) (halive : ag.alive = true)
    (hnodupS : (w.qiSources.map (·.id)).Nodup)
    (hsel : (if sid = 0 then nearestOreSource w.qiSources ore ag.position
             else w.qiSources.find? (fun s => decide (s.id = sid) &&
               decide (s.ore = ore))) = some src)
    (hrange : ag.position.withinRange src.position HARVEST_RANGE = true) :
    (src.current < HARVEST_PER_ACTION →
      Vm.applyAction w ⟨i, .harvestOre ore sid⟩ intents snap =
        (w, .error (.oreSourceDepleted ag.id ore src.id src.current))) ∧
    (HARVEST_PER_ACTION ≤ src.current → 1 ≤ ag.qi →
      (Vm.applyAction w ⟨i, .harvestOre ore sid⟩ intents snap).2 =
        Except.ok
          (if src.current - min src.current HARVEST_PER_ACTION = 0 then
            [Event.qiSpent ag.id 1 "harvest",
             Event.oreGained ag.id ore (min src.current HARVEST_PER_ACTION) "ore_node",
             Event.oreNodeHarvested ag.id ore src.id (min src.current HARVEST_PER_ACTION)
               (src.current - min src.current HARVEST_PER_ACTION)] ++
            [Event.oreNodeDrained ore src.id src.position]
          else
            [Event.qiSpent ag.id 1 "harvest",
             Event.oreGained ag.id ore (min src.current HARVEST_PER_ACTION) "ore_node",
             Event.oreNodeHarvested ag.id ore src.id (min src.current HARVEST_PER_ACTION)
               (src.current - min src.current HARVEST_PER_ACTION)]) ∧
      (Vm.applyAction w ⟨i, .harvestOre ore sid⟩ intents snap).1.qiSources =
        updateFirstSource w.qiSources
          (fun s => decide (s.id = src.id) && decide (s.ore = ore))
          (fun s => { s with current := src.current - min src.current HARVEST_PER_ACTION }) ∧
      agentById (Vm.applyAction w ⟨i, .harvestOre ore sid⟩ intents snap).1.agents i =
        some (Agent.gainOre { ag with qi := ag.qi - 1, age := ag.age + 1 } ore
          (min src.current HARVEST_PER_ACTION)) ∧
      (Vm.applyAction w ⟨i, .harvestOre ore sid⟩ intents snap).1.recycledQi =
        satAdd64 w.recycledQi 1) := by
  have hagid : ag.id = i := (agentById_mem hfind).2
  have happ : Vm.applyAction w ⟨i, .harvestOre ore sid⟩ intents snap =
      Vm.applyHarvest w ag ore sid := by
    simp [Vm.applyAction, hfind, halive]
  have hre : w.qiSources.find?
      (fun s => decide (s.id = src.id) && decide (s.ore = ore)) = some src := by
    by_cases hs0 : sid = 0
    · rw [if_pos hs0] at hsel
      obtain ⟨hmem, hore, _, _⟩ := nearestOreSource_mem hsel
      rw [← hore]
      exact find?_source_unique hnodupS hmem
    · rw [if_neg hs0] at hsel
      obtain ⟨_, hid, _⟩ := find?_source_props hsel
      rw [hid]
      exact hsel
  constructor
  · intro hdep
    rw [happ]
    simp only [Vm.applyHarvest]
    rw [hsel]
    simp only [hrange, Bool.not_true, Bool.false_eq_true, if_false]
    rw [if_pos hdep]
  · intro hcur hq
    rw [happ]
    have hbody : Vm.applyHarvest w ag ore sid =
        (let amount := min src.current HARVEST_PER_ACTION
         let newCurrent := src.current - amount
         let agent' := { ag with qi := ag.qi - 1, age := ag.age + 1 }
         let w1 := { w with agents := updAgents w.agents ag.id (fun _a => agent') }
         let w2 := w1.recycleQi 1
         let w3 := { w2 with qiSources := (updateFirstSource w2.qiSources
           (fun s => decide (s.id = src.id) && decide (s.ore = ore))
           (fun s => { s with current := newCurrent })) }
         let w4 := { w3 with agents := (updAgents w3.agents ag.id
           (fun a => a.gainOre ore amount)) }
         (w4, Except.ok
           (if newCurrent = 0 then
             [Event.qiSpent ag.id 1 "harvest",
              Event.oreGained ag.id ore amount "ore_node",
              Event.oreNodeHarvested ag.id ore src.id amount newCurrent] ++
             [Event.oreNodeDrained ore src.id src.position]
           else
             [Event.qiSpent ag.id 1 "harvest",
              Event.oreGained ag.id ore amount "ore_node",
              Event.oreNodeHarvested ag.id ore src.id amount newCurrent]))) := by
      simp only [Vm.applyHarvest]
      rw [hsel]
      simp only [hrange, Bool.not_true, Bool.false_eq_true, if_false]
      rw [if_neg (Nat.not_lt.mpr hcur), if_neg (Nat.not_lt.mpr hq)]
      simp only [recycleQi_qiSources]
      rw [hre]
      rfl
    rw [hbody]
    refine ⟨rfl, rfl, ?_, rfl⟩
    show agentById (updAgents (updAgents w.agents ag.id
      (fun _a => { ag with qi := ag.qi - 1, age := ag.age + 1 })) ag.id
      (fun a => a.gainOre ore (min src.current HARVEST_PER_ACTION))) i = _
    rw [updAgents_updAgents_const w.agents ag.id { ag with qi := ag.qi - 1, age := ag.age + 1 } _ rfl, ← hagid]
    apply agentById_updAgents_self (by rw [hagid]; exact hfind)
    simp

end Harimu

namespace Harimu

def c4wAgent : Agent :=
  { id := 1, name := "Hoarder", qi := u32Max, transistors := 0,
    position := Position.origin, alive := true, age := 0, maxAge := 112,
    discoveredZones := [Zone.mk 0 0 0] }

def c4wSrc : QiSource :=
  { id := 1, ore := .qi, position := Position.origin, capacity := 5,
    current := 5, rechargePerTick := 0 }

theorem c4_harvest_amended_witness :
    (agentById c4World.agents 1 = some c4wAgent ∧
     (if (0:Nat) = 0 then nearestOreSource c4World.qiSources .qi c4wAgent.position
      else c4World.qiSources.find? (fun s => decide (s.id = 0) &&
        decide (s.ore = OreKind.qi))) = some c4wSrc) ∧
    (Vm.applyAction c4World ⟨1, .harvestOre .qi 0⟩ [] []).2 =
      Except.ok
        (if c4wSrc.current - min c4wSrc.current HARVEST_PER_ACTION = 0 then
          [Event.qiSpent c4wAgent.id 1 "harvest",
           Event.oreGained c4wAgent.id .qi (min c4wSrc.current HARVEST_PER_ACTION) "ore_node",
           Event.oreNodeHarvested c4wAgent.id .qi c4wSrc.id
             (min c4wSrc.current HARVEST_PER_ACTION)
             (c4wSrc.current - min c4wSrc.current HARVEST_PER_ACTION)] ++
          [Event.oreNodeDrained .qi c4wSrc.id c4wSrc.position]
        else
          [Event.qiSpent c4wAgent.id 1 "harvest",
           Event.oreGained c4wAgent.id .qi (min c4wSrc.current HARVEST_PER_ACTION) "ore_node",
           Event.oreNodeHarvested c4wAgent.id .qi c4wSrc.id
             (min c4wSrc.current HARVEST_PER_ACTION)
             (c4wSrc.current - min c4wSrc.current HARVEST_PER_ACTION)]) ∧
    (Vm.applyAction c4World ⟨1, .harvestOre .qi 0⟩ [] []).1.qiSources =
      updateFirstSource c4World.qiSources
        (fun s => decide (s.id = c4wSrc.id) && decide (s.ore = OreKind.qi))
        (fun s => { s with
          current := c4wSrc.current - min c4wSrc.current HARVEST_PER_ACTION }) ∧
    agentById (Vm.applyAction c4World ⟨1, .harvestOre .qi 0⟩ [] []).1.agents 1 =
      some (Agent.gainOre
        { c4wAgent with qi := c4wAgent.qi - 1, age := c4wAgent.age + 1 } .qi
        (min c4wSrc.current HARVEST_PER_ACTION)) ∧
    (Vm.applyAction c4World ⟨1, .harvestOre .qi 0⟩ [] []).1.recycledQi =
      satAdd64 c4World.recycledQi 1 :=
  ⟨⟨by decide, by decide⟩,
   (c4_harvest_amended c4World 1 c4wAgent .qi 0 c4wSrc [] []
      (by decide) (by decide) (by decide) (by decide) (by decide)).2
      (by decide) (by decide)⟩

end Harimu

namespace Harimu

/-- Eligibility of a source for `nearest_ore_source`: requested kind,
non-empty, within `SCAN_RANGE`. -/
def harvestEligible (ore : OreKind) (pos : Position) (s : QiSource) : Bool :=
  decide (s.ore = ore) && decide (s.current ≠ 0) &&
    pos.withinRange s.position SCAN_RANGE

/-- First element of the list attaining the minimum of `d` (ties broken by
first-found order). -/
def firstMinBy (d : QiSource → Int) : List QiSource → Option QiSource
  | [] => none
  | x :: xs =>
    match firstMinBy d xs with
    | none => some x
    | some y => if d y < d x then some y else some x

/-- `nearest_ore_source` as the specification words it: among the sources of
the requested kind that are non-empty and within `SCAN_RANGE` (Chebyshev), the
first one in list order attaining the minimum Manhattan distance. -/
def specNearestOreSource (sources : List QiSource) (ore : OreKind)
    (pos : Position) : Option QiSource :=
  let eligible := sources.filter (harvestEligible ore pos)
  eligible.find? (fun s => decide (∀ t ∈ eligible,
    manhattanDist pos s.position ≤ manhattanDist pos t.position))

/-- The fold step of `nearest_ore_source`, with the three skip tests fused
into `harvestEligible`. -/
def nosStep (ore : OreKind) (pos : Position) (best : Option (Int × QiSource))
    (src : QiSource) : Option (Int × QiSource) :=
  if harvestEligible ore pos src then
    match best with
    | some (bestDist, bestSrc) =>
      if manhattanDist pos src.position < bestDist then
        some (manhattanDist pos src.position, src)
      else some (bestDist, bestSrc)
    | none => some (manhattanDist pos src.position, src)
  else best

lemma foldl_congr' {α β : Type} (f g : β → α → β) (hfg : ∀ b a, f b a = g b a) :
    ∀ (l : List α) (b : β), l.foldl f b = l.foldl g b := by
  intro l
  induction l with
  | nil => intro b; rfl
  | cons x xs ih => intro b; rw [List.foldl_cons, List.foldl_cons, hfg, ih]

lemma nosFold_some (ore : OreKind) (pos : Position) :
    ∀ (l : List QiSource) (bd : Int) (bs : QiSource),
      l.foldl (nosStep ore pos) (some (bd, bs)) =
        (match firstMinBy (fun s => manhattanDist pos s.position)
            (l.filter (harvestEligible ore pos)) with
         | none => some (bd, bs)
         | some m =>
           if manhattanDist pos m.position < bd then
             some (manhattanDist pos m.position, m)
           else some (bd, bs)) := by
  intro l
  induction l with
  | nil => intro bd bs; simp [firstMinBy]
  | cons x xs ih =>
    intro bd bs
    rw [List.foldl_cons, List.filter_cons]
    by_cases hP : harvestEligible ore pos x = true
    · rw [if_pos hP]
      by_cases hx : manhattanDist pos x.position < bd
      · have hstep : nosStep ore pos (some (bd, bs)) x =
            some (manhattanDist pos x.position, x) := by
          simp [nosStep, hP, hx]
        rw [hstep, ih]
        cases hfm : firstMinBy (fun s => manhattanDist pos s.position)
            (xs.filter (harvestEligible ore pos)) with
        | none => simp [firstMinBy, hfm, hx]
        | some y =>
          by_cases hyx : manhattanDist pos y.position < manhattanDist pos x.position
          · simp [firstMinBy, hfm, hyx, lt_trans hyx hx]
          · simp [firstMinBy, hfm, hyx, hx]
      · have hstep : nosStep ore pos (some (bd, bs)) x = some (bd, bs) := by
          simp [nosStep, hP, hx]
        rw [hstep, ih]
        cases hfm : firstMinBy (fun s => manhattanDist pos s.position)
            (xs.filter (harvestEligible ore pos)) with
        | none => simp [firstMinBy, hfm, hx]
        | some y =>
          by_cases hyx : manhattanDist pos y.position < manhattanDist pos x.position
          · simp [firstMinBy, hfm, hyx]
          · have hyb : ¬ manhattanDist pos y.position < bd := fun hc =>
              hx (lt_of_le_of_lt (not_lt.mp hyx) hc)
            simp [firstMinBy, hfm, hyx, hx, hyb]
    · rw [if_neg hP]
      have hstep : nosStep ore pos (some (bd, bs)) x = some (bd, bs) := by
        simp [nosStep, hP]
      rw [hstep]
      exact ih bd bs

lemma nosFold_none (ore : OreKind) (pos : Position) (l : List QiSource) :
    l.foldl (nosStep ore pos) none =
      (firstMinBy (fun s => manhattanDist pos s.position)
        (l.filter (harvestEligible ore pos))).map
        (fun m => (manhattanDist pos m.position, m)) := by
  cases l with
  | nil => rfl
  | cons x xs =>
    rw [List.foldl_cons, List.filter_cons]
    by_cases hP : harvestEligible ore pos x = true
    · have hstep : nosStep ore pos none x =
          some (manhattanDist pos x.position, x) := by
        simp [nosStep, hP]
      rw [if_pos hP, hstep, nosFold_some ore pos xs]
      cases hfm : firstMinBy (fun s => manhattanDist pos s.position)
          (xs.filter (harvestEligible ore pos)) with
      | none => simp [firstMinBy, hfm]
      | some y =>
        by_cases hyx : manhattanDist pos y.position < manhattanDist pos x.position
        · simp [firstMinBy, hfm, hyx]
        · simp [firstMinBy, hfm, hyx]
    · have hstep : nosStep ore pos none x = none := by simp [nosStep, hP]
      rw [if_neg hP, hstep]
      exact nosFold_none ore pos xs

lemma firstMinBy_eq_none {d : QiSource → Int} {l : List QiSource}
    (h : firstMinBy d l = none) : l = [] := by
  cases l with
  | nil => rfl
  | cons x xs =>
    exfalso
    simp only [firstMinBy] at h
    split at h
    · exact Option.noConfusion h
    · split at h <;> exact Option.noConfusion h

lemma find?_eq_some_of_stronger {α : Type} {p q : α → Bool} :
    ∀ {l : List α} {a : α}, l.find? p = some a →
      (∀ b ∈ l, q b = true → p b = true) → q a = true → l.find? q = some a := by
  intro l
  induction l with
  | nil => intro a h _ _; simp at h
  | cons b t ih =>
    intro a h himp ha
    by_cases hb : p b = true
    · rw [List.find?_cons_of_pos _ hb] at h
      have hba : b = a := by simpa using h
      subst hba
      rw [List.find?_cons_of_pos _ ha]
    · rw [List.find?_cons_of_neg _ (by simp [hb])] at h
      have hqb : q b = false := by
        cases hq : q b
        · rfl
        · exact absurd (himp b (List.mem_cons_self _ _) hq) hb
      rw [List.find?_cons_of_neg _ (by simp [hqb])]
      exact ih h (fun c hc => himp c (List.mem_cons_of_mem _ hc)) ha

lemma firstMinBy_eq_find? (d : QiSource → Int) :
    ∀ (l : List QiSource),
      firstMinBy d l = l.find? (fun s => decide (∀ t ∈ l, d s ≤ d t)) := by
  intro l
  induction l with
  | nil => rfl
  | cons x xs ih =>
    cases hfm : firstMinBy d xs with
    | none =>
      have hxs := firstMinBy_eq_none hfm
      subst hxs
      simp [firstMinBy]
    | some y =>
      have hfind : xs.find? (fun s => decide (∀ t ∈ xs, d s ≤ d t)) = some y :=
        ih ▸ hfm
      have hy : ∀ t ∈ xs, d y ≤ d t := by
        have h2 := List.find?_some hfind
        simpa using h2
      have hymem : y ∈ xs := List.mem_of_find?_eq_some hfind
      simp only [firstMinBy, hfm]
      by_cases hc : d y < d x
      · rw [if_pos hc]
        have hxfail : ¬ ((fun s => decide (∀ t ∈ x :: xs, d s ≤ d t)) x = true) := by
          simp only [decide_eq_true_eq]
          intro hall
          exact absurd (hall y (List.mem_cons_of_mem _ hymem)) (not_le.mpr hc)
        rw [@List.find?_cons_of_neg _ (fun s => decide (∀ t ∈ x :: xs, d s ≤ d t))
          x xs hxfail]
        symm
        apply find?_eq_some_of_stronger hfind
        · intro b _ hb
          simp only [decide_eq_true_eq] at hb ⊢
          intro t ht
          exact hb t (List.mem_cons_of_mem _ ht)
        · simp only [decide_eq_true_eq]
          intro t ht
          rcases List.mem_cons.mp ht with rfl | ht'
          · exact le_of_lt hc
          · exact hy t ht'
      · rw [if_neg hc]
        have hxtrue : (fun s => decide (∀ t ∈ x :: xs, d s ≤ d t)) x = true := by
          simp only [decide_eq_true_eq]
          intro t ht
          rcases List.mem_cons.mp ht with rfl | ht'
          · exact le_refl _
          · exact le_trans (not_lt.mp hc) (hy t ht')
        rw [@List.find?_cons_of_pos _ (fun s => decide (∀ t ∈ x :: xs, d s ≤ d t))
          x xs hxtrue]

lemma nearestOreSource_eq_spec (sources : List QiSource) (ore : OreKind)
    (pos : Position) :
    nearestOreSource sources ore pos = specNearestOreSource sources ore pos := by
  have h1 : nearestOreSource sources ore pos =
      (sources.foldl (nosStep ore pos) none).map (·.2) := by
    simp only [nearestOreSource]
    refine congrArg (Option.map _) (foldl_congr' _ _ ?_ sources none)
    intro b a
    simp only [nosStep, harvestEligible]
    by_cases h1 : a.ore = ore
    · by_cases h2 : a.current = 0
      · simp [h1, h2]
      · by_cases h3 : pos.withinRange a.position SCAN_RANGE = true
        · simp [h1, h2, h3]
        · simp [h1, h2, h3]
    · simp [h1]
  rw [h1, nosFold_none]
  simp only [specNearestOreSource]
  have h2 := firstMinBy_eq_find? (fun s => manhattanDist pos s.position)
    (sources.filter (harvestEligible ore pos))
  simp only at h2
  rw [← h2]
  cases hfm : firstMinBy (fun s => manhattanDist pos s.position)
      (sources.filter (harvestEligible ore pos)) <;> simp

end Harimu

namespace Harimu

/-- C7 (amended): for `source_id == 0` the engine selects exactly the first
in-list source of the requested kind that is non-empty, within `SCAN_RANGE`,
and of minimal Manhattan distance (`nearestOreSource` coincides with the
spec-worded `specNearestOreSource`); but on either selection path the selected
source is only harvested if it also lies within `HARVEST_RANGE` of the agent,
the request being rejected with `OreSourceUnavailable` otherwise, and a failed
selection (named source missing or kind mismatch, or no eligible
source) is likewise rejected with `OreSourceUnavailable`. -/
theorem c7_selection_and_range (w : World) (i : AgentId) (ag : Agent)
    (ore : OreKind) (sid : Nat) (intents : List (AgentId × AgentId))
    (snap : List (AgentId × Position × Bool))
    (hfind : agentById w.agents i = some ag) (halive : ag.alive = true) :
    nearestOreSource w.qiSources ore ag.position =
      specNearestOreSource w.qiSources ore ag.position ∧
    (∀ src,
      (if sid = 0 then nearestOreSource w.qiSources ore ag.position
       else w.qiSources.find? (fun s => decide (s.id = sid) &&
         decide (s.ore = ore))) = some src →
      ag.position.withinRange src.position HARVEST_RANGE = false →
      Vm.applyAction w ⟨i, .harvestOre ore sid⟩ intents snap =
        (w, .error (.oreSourceUnavailable ag.id ore
          (if sid ≠ 0 then some sid else none)))) ∧
    ((if sid = 0 then nearestOreSource w.qiSources ore ag.position
      else w.qiSources.find? (fun s => decide (s.id = sid) &&
        decide (s.ore = ore))) = none →
      Vm.applyAction w ⟨i, .harvestOre ore sid⟩ intents snap =
        (w, .error (.oreSourceUnavailable ag.id ore
          (if sid ≠ 0 then some sid else none)))) := by
  have happ : Vm.applyAction w ⟨i, .harvestOre ore sid⟩ intents snap =
      Vm.applyHarvest w ag ore sid := by
    simp [Vm.applyAction, hfind, halive]
  refine ⟨nearestOreSource_eq_spec _ _ _, ?_, ?_⟩
  · intro src hsel hrange
    rw [happ]
    simp only [Vm.applyHarvest]
    rw [hsel]
    simp [hrange]
  · intro hsel
    rw [happ]
    simp only [Vm.applyHarvest]
    rw [hsel]

def c7wAgent : Agent :=
  { id := 1, name := "Reach", qi := 3, transistors := 0,
    position := Position.origin, alive := true, age := 0, maxAge := 112,
    discoveredZones := [Zone.mk 0 0 0] }

def c7wSrc : QiSource :=
  { id := 1, ore := .qi, position := ⟨2, 0, 0⟩, capacity := 5,
    current := 5, rechargePerTick := 0 }

/-- A world with an agent but no ore sources at all, for the failed-selection
path of a named source id. -/
def c7bWorld : World := (World.new.spawnAgent "Reach" 3 Position.origin).2

theorem c7_selection_and_range_witness :
    nearestOreSource c7World.qiSources .qi c7wAgent.position =
      specNearestOreSource c7World.qiSources .qi c7wAgent.position ∧
    Vm.applyAction c7World ⟨1, .harvestOre .qi 0⟩ [] [] =
      (c7World, .error (.oreSourceUnavailable c7wAgent.id .qi
        (if (0:Nat) ≠ 0 then some 0 else none))) ∧
    Vm.applyAction c7bWorld ⟨1, .harvestOre .qi 7⟩ [] [] =
      (c7bWorld, .error (.oreSourceUnavailable c7wAgent.id .qi
        (if (7:Nat) ≠ 0 then some 7 else none))) :=
  ⟨(c7_selection_and_range c7World 1 c7wAgent .qi 0 [] []
      (by decide) (by decide)).1,
   (c7_selection_and_range c7World 1 c7wAgent .qi 0 [] []
      (by decide) (by decide)).2.1 c7wSrc (by decide) (by decide),
   (c7_selection_and_range c7bWorld 1 c7wAgent .qi 7 [] []
      (by decide) (by decide)).2.2 (by decide)⟩

end Harimu

namespace Harimu

/-- Exact (unclamped) total of Qi in the world: all agents' balances, the
current amounts of Qi-kind sources, and the recycled pool. -/
def agentsQiSum (l : List Agent) : Nat := (l.map (·.qi)).sum

def sourcesQiSum (l : List QiSource) : Nat :=
  ((l.filter (fun s => decide (s.ore = OreKind.qi))).map (·.current)).sum

def exactQiTotal (w : World) : Nat :=
  agentsQiSum w.agents + sourcesQiSum w.qiSources + w.recycledQi

lemma satFold_eq {α : Type} (f : α → Nat) :
    ∀ (l : List α) (acc : Nat), acc ≤ u64Max →
      l.foldl (fun a x => satAdd64 a (f x)) acc = min (acc + (l.map f).sum) u64Max := by
  intro l
  induction l with
  | nil =>
    intro acc hacc
    simp only [List.foldl_nil, List.map_nil, List.sum_nil, Nat.add_zero]
    omega
  | cons x xs ih =>
    intro acc hacc
    rw [List.foldl_cons, ih (satAdd64 acc (f x)) (min_le_right _ _)]
    simp only [List.map_cons, List.sum_cons, satAdd64]
    omega

lemma totalQiSupply_eq (w : World) :
    w.totalQiSupply = min (exactQiTotal w) u64Max := by
  simp only [World.totalQiSupply, exactQiTotal, agentsQiSum, sourcesQiSum]
  have h1 := satFold_eq (fun a : Agent => a.qi) w.agents 0 (by omega)
  have h2 := satFold_eq (fun s : QiSource => s.current)
    (w.qiSources.filter (fun s => decide (s.ore = OreKind.qi))) 0 (by omega)
  simp only [Nat.zero_add] at h1 h2
  rw [h1, h2]
  simp only [satAdd64]
  omega

/-- Updating agents through a balance-preserving function leaves the agents'
Qi sum unchanged. -/
lemma agentsQiSum_updAgents_qi_const (l : List Agent) (i : AgentId)
    (f : Agent → Agent) (h : ∀ a, (f a).qi = a.qi) :
    agentsQiSum (updAgents l i f) = agentsQiSum l := by
  simp only [agentsQiSum, updAgents, List.map_map]
  congr 1
  apply List.map_congr_left
  intro a _
  by_cases hb : a.id = i <;> simp [hb, h]

lemma updAgents_not_mem {l : List Agent} {i : AgentId} {f : Agent → Agent}
    (h : ∀ b ∈ l, ¬ b.id = i) : updAgents l i f = l := by
  unfold updAgents
  induction l with
  | nil => rfl
  | cons b t ih =>
    rw [List.map_cons, if_neg (h b (List.mem_cons_self _ _))]
    rw [ih (fun c hc => h c (List.mem_cons_of_mem _ hc))]

lemma agentsQiSum_updAgents (l : List Agent) (i : AgentId) (f : Agent → Agent)
    (a : Agent) (hnd : (l.map (·.id)).Nodup) (hfind : agentById l i = some a) :
    agentsQiSum (updAgents l i f) + a.qi = agentsQiSum l + (f a).qi := by
  induction l with
  | nil => simp [agentById] at hfind
  | cons b t ih =>
    rw [List.map_cons, List.nodup_cons] at hnd
    by_cases hb : b.id = i
    · have hba : b = a := by
        unfold agentById at hfind
        rw [List.find?_cons_of_pos _ (by simpa using hb)] at hfind
        exact Option.some_injective _ hfind
      subst hba
      have ht : updAgents t i f = t := by
        apply updAgents_not_mem
        intro c hc hci
        exact hnd.1 (List.mem_map.mpr ⟨c, hc, hci.trans hb.symm⟩)
      show agentsQiSum ((if b.id = i then f b else b) :: updAgents t i f) + b.qi = _
      rw [if_pos hb, ht]
      simp only [agentsQiSum, List.map_cons, List.sum_cons]
      omega
    · have hfind' : agentById t i = some a := by
        unfold agentById at hfind ⊢
        rwa [List.find?_cons_of_neg _ (by simpa using hb)] at hfind
      have ih' := ih hnd.2 hfind'
      show agentsQiSum ((if b.id = i then f b else b) :: updAgents t i f) + a.qi = _
      rw [if_neg hb]
      simp only [agentsQiSum, List.map_cons, List.sum_cons] at ih' ⊢
      omega

/-- Accounting for `updateFirstSource` at the first `pred` match. -/
lemma sourcesQiSum_updateFirstSource (pred : QiSource → Bool)
    (f : QiSource → QiSource) :
    ∀ (l : List QiSource) (src : QiSource), l.find? pred = some src →
      (f src).ore = src.ore →
      (src.ore = OreKind.qi →
        sourcesQiSum (updateFirstSource l pred f) + src.current =
          sourcesQiSum l + (f src).current) ∧
      (src.ore ≠ OreKind.qi →
        sourcesQiSum (updateFirstSource l pred f) = sourcesQiSum l) := by
  intro l
  induction l with
  | nil => intro src h _; simp at h
  | cons x xs ih =>
    intro src hfind hore
    by_cases hp : pred x = true
    · rw [List.find?_cons_of_pos _ hp] at hfind
      have hxs : x = src := Option.some_injective _ hfind
      subst hxs
      simp only [updateFirstSource, if_pos hp]
      constructor
      · intro hq
        have hf : (f x).ore = OreKind.qi := hore.trans hq
        simp [sourcesQiSum, List.filter_cons, hq, hf]
        omega
      · intro hq
        have hf : ¬ (f x).ore = OreKind.qi := fun hc => hq (hore.symm.trans hc)
        simp [sourcesQiSum, List.filter_cons, hq, hf]
    · rw [List.find?_cons_of_neg _ hp] at hfind
      obtain ⟨ih1, ih2⟩ := ih src hfind hore
      simp only [updateFirstSource, if_neg hp]
      constructor
      · intro hq
        have h1 := ih1 hq
        by_cases hxq : x.ore = OreKind.qi
        · simp only [sourcesQiSum, List.filter_cons, hxq, eq_self_iff_true,
            decide_True, if_true, List.map_cons, List.sum_cons] at h1 ⊢
          omega
        · simp only [sourcesQiSum, List.filter_cons] at h1 ⊢
          rw [if_neg (by simp [hxq]), if_neg (by simp [hxq])]
          omega
      · intro hq
        have h2 := ih2 hq
        by_cases hxq : x.ore = OreKind.qi
        · simp only [sourcesQiSum, List.filter_cons, hxq, eq_self_iff_true,
            decide_True, if_true, List.map_cons, List.sum_cons] at h2 ⊢
          omega
        · simp only [sourcesQiSum, List.filter_cons] at h2 ⊢
          rw [if_neg (by simp [hxq]), if_neg (by simp [hxq])]
          omega

end Harimu

namespace Harimu

lemma rechargeSource_nonqi (src : QiSource) (b p : Nat)
    (h : src.ore ≠ OreKind.qi) :
    rechargeSource src b p =
      ({ src with
         current := (min (satAdd32 src.current src.rechargePerTick) src.capacity)
       }, b, p) := by
  simp only [rechargeSource]
  rw [if_pos h]

lemma rechargeSource_qi_le (src : QiSource) (b p : Nat)
    (h : src.ore = OreKind.qi) :
    ∀ src' b' p', rechargeSource src b p = (src', b', p') →
      src'.ore = src.ore ∧ b' + p' + src'.current ≤ b + p + src.current := by
  intro src' b' p' heq
  simp only [rechargeSource] at heq
  rw [if_neg (not_not_intro h)] at heq
  obtain ⟨cap, hcap⟩ : ∃ n : ℕ, src.capacity = n := ⟨_, rfl⟩
  obtain ⟨cur, hcur⟩ : ∃ n : ℕ, src.current = n := ⟨_, rfl⟩
  obtain ⟨rpt, hrpt⟩ : ∃ n : ℕ, src.rechargePerTick = n := ⟨_, rfl⟩
  rw [hcap, hcur, hrpt] at heq
  rw [hcur]
  set fp := p ⊓ (cap - cur) ⊓ rpt with hfp
  have hfp_p : fp ≤ p := le_trans (min_le_left _ _) (min_le_left _ _)
  set c1 := cast32 fp with hc1
  have hc1fp : c1 ≤ fp := by rw [hc1]; exact Nat.mod_le _ _
  clear_value fp c1
  clear hfp hc1
  by_cases hc : cap - cur = 0
  · rw [if_pos hc] at heq
    cases heq
    exact ⟨rfl, by rw [hcur]⟩
  · rw [if_neg hc] at heq
    by_cases hfp0 : fp > 0
    · simp only [if_pos hfp0] at heq
      try dsimp only at heq
      try simp only [hcap, hcur, hrpt] at heq
      set cur1 := satAdd32 cur c1 ⊓ cap with hcur1
      have hcur1le : cur1 ≤ cur + c1 := by
        rw [hcur1, satAdd32]
        exact le_trans (min_le_left _ _) (min_le_left _ _)
      set mt := (rpt - fp) ⊓ ((cap - cur - fp) ⊓ (cap - cur1)) ⊓ b with hmt
      have hmtb : mt ≤ b := min_le_right _ _
      set c2 := cast32 mt with hc2
      have hc2mt : c2 ≤ mt := by rw [hc2]; exact Nat.mod_le _ _
      clear_value cur1 mt c2
      clear hcur1 hmt hc2
      repeat' split at heq
      all_goals cases heq
      all_goals constructor
      all_goals (try rfl)
      all_goals (try dsimp only)
      all_goals (try simp only [satAdd32, u32Max])
      all_goals (try rw [hcur])
      all_goals (change (_ : ℕ) ≤ (_ : ℕ))
      all_goals omega
    · simp only [if_neg hfp0] at heq
      try dsimp only at heq
      try simp only [hcap, hcur, hrpt] at heq
      set mt := (rpt - fp) ⊓ ((cap - cur - fp) ⊓ (cap - cur)) ⊓ b with hmt
      have hmtb : mt ≤ b := min_le_right _ _
      set c2 := cast32 mt with hc2
      have hc2mt : c2 ≤ mt := by rw [hc2]; exact Nat.mod_le _ _
      clear_value mt c2
      clear hmt hc2
      repeat' split at heq
      all_goals cases heq
      all_goals constructor
      all_goals (try rfl)
      all_goals (try dsimp only)
      all_goals (try simp only [satAdd32, u32Max])
      all_goals (try rw [hcur])
      all_goals (change (_ : ℕ) ≤ (_ : ℕ))
      all_goals omega

/-- The recharge loop never increases the combined quantity
`Qi in Qi-kind sources + remaining mint budget + recycled pool`. -/
lemma rechargeList_le : ∀ (l : List QiSource) (b p : Nat),
    sourcesQiSum (rechargeList l b p).1 + (rechargeList l b p).2.1 +
        (rechargeList l b p).2.2 ≤ sourcesQiSum l + b + p := by
  intro l
  induction l with
  | nil => intro b p; simp [rechargeList]
  | cons x xs ih =>
    intro b p
    simp only [rechargeList]
    have ih' := ih (rechargeSource x b p).2.1 (rechargeSource x b p).2.2
    by_cases hxq : x.ore = OreKind.qi
    · have hqle := rechargeSource_qi_le x b p hxq (rechargeSource x b p).1
        (rechargeSource x b p).2.1 (rechargeSource x b p).2.2 rfl
      have hro : ((rechargeSource x b p).1).ore = OreKind.qi := hqle.1.trans hxq
      have h1 := hqle.2
      simp only [sourcesQiSum, List.filter_cons, hxq, hro, eq_self_iff_true,
        decide_True, if_true, List.map_cons, List.sum_cons] at ih' ⊢
      omega
    · have hnq := rechargeSource_nonqi x b p hxq
      rw [hnq] at ih' ⊢
      simp only [sourcesQiSum, List.filter_cons] at ih' ⊢
      rw [if_neg (by simp [hxq]), if_neg (by simp [hxq])]
      omega

/-- A recharge with a configured cap keeps the exact total at or below the
cap (the minted amount is bounded by the remaining budget). -/
lemma rechargeQiSources_exact_le (w : World) (maxQ : Nat)
    (hmax : w.maxQiSupply = some maxQ) (hM : maxQ ≤ u64Max)
    (hle : exactQiTotal w ≤ maxQ) :
    exactQiTotal w.rechargeQiSources ≤ maxQ := by
  have htot : w.totalQiSupply = exactQiTotal w := by
    rw [totalQiSupply_eq]
    exact min_eq_left (le_trans hle hM)
  have h := rechargeList_le w.qiSources (maxQ - w.totalQiSupply) w.recycledQi
  simp only [World.rechargeQiSources, hmax]
  rw [htot] at h ⊢
  simp only [exactQiTotal] at hle h ⊢
  omega

@[simp] lemma rechargeQiSources_maxQiSupply (w : World) :
    w.rechargeQiSources.maxQiSupply = w.maxQiSupply := rfl

@[simp] lemma rechargeQiSources_tick (w : World) :
    w.rechargeQiSources.tick = w.tick := rfl

end Harimu

namespace Harimu

/-- What a non-`Reproduce` action arm may do to the Qi books: the exact total
never grows, the agent id list is untouched, and the configured cap is kept. -/
def ExactOk (w w' : World) : Prop :=
  exactQiTotal w' ≤ exactQiTotal w ∧
  w'.agents.map (·.id) = w.agents.map (·.id) ∧
  w'.maxQiSupply = w.maxQiSupply

lemma ExactOk_refl (w : World) : ExactOk w w := ⟨le_refl _, rfl, rfl⟩

lemma ExactOk_trans {w1 w2 w3 : World} (h1 : ExactOk w1 w2)
    (h2 : ExactOk w2 w3) : ExactOk w1 w3 :=
  ⟨le_trans h2.1 h1.1, h2.2.1.trans h1.2.1, h2.2.2.trans h1.2.2⟩

lemma applyIdle_exact {w : World} {ag : Agent} (hnd : (w.agents.map (·.id)).Nodup)
    (hfind : agentById w.agents ag.id = some ag) :
    ExactOk w (Vm.applyIdle w ag).1 := by
  have hsum := agentsQiSum_updAgents w.agents ag.id
    (fun _a => { ag with age := ag.age + 1 }) ag hnd hfind
  dsimp only at hsum
  refine ⟨?_, updAgents_map_id (fun b hb => hb.symm), rfl⟩
  simp only [Vm.applyIdle, exactQiTotal]
  omega

lemma applyScan_exact {w : World} {ag : Agent} (hnd : (w.agents.map (·.id)).Nodup)
    (hfind : agentById w.agents ag.id = some ag) :
    ExactOk w (Vm.applyScan w ag).1 := by
  have hsum := agentsQiSum_updAgents w.agents ag.id
    (fun _a => { ag with age := ag.age + 1 }) ag hnd hfind
  dsimp only at hsum
  refine ⟨?_, updAgents_map_id (fun b hb => hb.symm), rfl⟩
  simp only [Vm.applyScan, exactQiTotal]
  omega

lemma applyMove_exact {w : World} {ag : Agent} {dx dy dz : Int}
    (hnd : (w.agents.map (·.id)).Nodup)
    (hfind : agentById w.agents ag.id = some ag) :
    ExactOk w (Vm.applyMove w ag dx dy dz).1 := by
  simp only [Vm.applyMove]
  split
  · exact ExactOk_refl w
  · split
    · exact ExactOk_refl w
    · split
      · refine ⟨?_, updAgents_map_id (fun b _ => rfl), rfl⟩
        simp only [exactQiTotal]
        rw [agentsQiSum_updAgents_qi_const w.agents ag.id
          (fun a => { a with
            discoveredZones :=
              (if ag.position.zone ≠ (ag.position.offset dx dy dz).zone ∧
                  ¬ (ag.position.offset dx dy dz).zone ∈ ag.discoveredZones then
                (ag.position.offset dx dy dz).zone :: ag.discoveredZones
              else ag.discoveredZones) }) (fun a => rfl)]
      · rename_i hq
        have hsum := agentsQiSum_updAgents w.agents ag.id
          (fun _a => { ag with
            qi := ag.qi - 1
            position := ag.position.offset dx dy dz
            age := ag.age + 1
            discoveredZones :=
              (if ag.position.zone ≠ (ag.position.offset dx dy dz).zone ∧
                  ¬ (ag.position.offset dx dy dz).zone ∈ ag.discoveredZones then
                (ag.position.offset dx dy dz).zone :: ag.discoveredZones
              else ag.discoveredZones) }) ag hnd hfind
        dsimp only at hsum
        refine ⟨?_, updAgents_map_id (fun b hb => hb.symm), rfl⟩
        simp only [exactQiTotal, World.recycleQi, satAdd64, u64Max] at hsum ⊢
        omega

end Harimu

namespace Harimu

lemma exact_spend_recycle_le (l : List Agent) (i : AgentId) (a : Agent)
    (hnd : (l.map (·.id)).Nodup) (hfind : agentById l i = some a)
    (f : Agent → Agent) (S R : Nat)
    (hq : 1 ≤ a.qi) (hf : (f a).qi = a.qi - 1) :
    agentsQiSum (updAgents l i f) + S + min (R + 1) u64Max ≤
      agentsQiSum l + S + R := by
  have h := agentsQiSum_updAgents l i f a hnd hfind
  rw [hf] at h
  simp only [u64Max]
  omega

lemma exact_harvest_le (l : List Agent) (i : AgentId) (a : Agent)
    (hnd : (l.map (·.id)).Nodup) (hfind : agentById l i = some a)
    (f : Agent → Agent) (S' S R amount : Nat)
    (hq : 1 ≤ a.qi) (hf : (f a).qi ≤ a.qi - 1 + amount) (hS : S' + amount ≤ S) :
    agentsQiSum (updAgents l i f) + S' + min (R + 1) u64Max ≤
      agentsQiSum l + S + R := by
  have h := agentsQiSum_updAgents l i f a hnd hfind
  simp only [u64Max]
  omega

lemma applyBuild_exact {w : World} {ag : Agent} {kind : StructureKind}
    (hnd : (w.agents.map (·.id)).Nodup)
    (hfind : agentById w.agents ag.id = some ag) :
    ExactOk w (Vm.applyBuild w ag kind).1 := by
  simp only [Vm.applyBuild, Action.qiCost]
  split
  · exact ExactOk_refl w
  · split
    · exact ExactOk_refl w
    · split
      · -- rejected for Qi: only the Transistor spend persisted
        refine ⟨?_, updAgents_map_id (fun b hb => by split <;> exact hb.symm), rfl⟩
        have h := agentsQiSum_updAgents w.agents ag.id
          (fun _a => if kind = StructureKind.programmable then
            { ag with transistors := ag.transistors - 1 } else ag) ag hnd hfind
        have hfq : ((if kind = StructureKind.programmable then
            { ag with transistors := ag.transistors - 1 } else ag)).qi = ag.qi := by
          split <;> rfl
        dsimp only at h
        rw [hfq] at h
        simp only [exactQiTotal]
        omega
      · rename_i hq3
        rw [Decidable.not_and_iff_or_not] at hq3
        have hq : 1 ≤ ag.qi := by
          rcases hq3 with h1 | h2
          · exact absurd (by omega) h1
          · omega
        simp only [gt_iff_lt, zero_lt_one, if_true]
        refine ⟨?_, updAgents_map_id
          (fun b hb => by try dsimp only; split <;> exact hb.symm), rfl⟩
        simp only [exactQiTotal, World.recycleQi, satAdd64]
        apply exact_spend_recycle_le w.agents ag.id ag hnd hfind _ _ _ hq
        dsimp only
        split <;> rfl

lemma applyHarvest_exact {w : World} {ag : Agent} {ore : OreKind} {sid : Nat}
    (hnd : (w.agents.map (·.id)).Nodup)
    (hfind : agentById w.agents ag.id = some ag) :
    ExactOk w (Vm.applyHarvest w ag ore sid).1 := by
  simp only [Vm.applyHarvest]
  split
  · exact ExactOk_refl w
  · split
    · exact ExactOk_refl w
    · split
      · exact ExactOk_refl w
      · split
        · exact ExactOk_refl w
        · rename_i src hsel hrange hdep hq0
          have hq : 1 ≤ ag.qi := by omega
          split
          · -- the re-lookup failed: only the Qi spend happened
            refine ⟨?_, updAgents_map_id (fun b hb => hb.symm), rfl⟩
            simp only [exactQiTotal, World.recycleQi, satAdd64]
            exact exact_spend_recycle_le w.agents ag.id ag hnd hfind _ _ _ hq rfl
          · rename_i src2 hre
            simp only [recycleQi_qiSources] at hre
            have hre2 : w.qiSources.find?
                (fun s => decide (s.id = src.id) && decide (s.ore = ore)) =
                some src2 := hre
            have hprops := List.find?_some hre2
            simp only [Bool.and_eq_true, decide_eq_true_eq] at hprops
            have hops := sourcesQiSum_updateFirstSource
              (fun s => decide (s.id = src.id) && decide (s.ore = ore))
              (fun s => { s with current := (src2.current - min src2.current HARVEST_PER_ACTION) })
              w.qiSources src2 hre2 rfl
            refine ⟨?_, ?_, rfl⟩
            · simp only [exactQiTotal, World.recycleQi, satAdd64,
                recycleQi_qiSources]
              rw [updAgents_updAgents_const w.agents ag.id
                { ag with qi := ag.qi - 1, age := ag.age + 1 } _ rfl]
              by_cases hq2 : src2.ore = OreKind.qi
              · have hS := hops.1 hq2
                apply exact_harvest_le w.agents ag.id ag hnd hfind _ _ _ _
                  (min src2.current HARVEST_PER_ACTION) hq
                · cases ore with
                  | qi =>
                    simp only [Agent.gainOre, satAdd32, u32Max]
                    omega
                  | transistor =>
                    simp only [Agent.gainOre]
                    omega
                · have hamt : min src2.current HARVEST_PER_ACTION ≤ src2.current :=
                    min_le_left _ _
                  dsimp only at hS
                  omega
              · have hS := hops.2 hq2
                apply exact_harvest_le w.agents ag.id ag hnd hfind _ _ _ _ 0 hq
                · have hore2 : ore = OreKind.transistor := by
                    cases ore with
                    | qi => exact absurd hprops.2 hq2
                    | transistor => rfl
                  subst hore2
                  simp only [Agent.gainOre]
                  omega
                · omega
            · show (updAgents (updAgents w.agents ag.id
                  (fun _a => { ag with qi := ag.qi - 1, age := ag.age + 1 })) ag.id
                  (fun a => a.gainOre ore (min src2.current HARVEST_PER_ACTION))).map
                  (·.id) = w.agents.map (·.id)
              rw [@updAgents_map_id _ ag.id
                  (fun a => a.gainOre ore (min src2.current HARVEST_PER_ACTION))
                  (fun b _ => gainOre_id b ore _),
                @updAgents_map_id w.agents ag.id
                  (fun _a => { ag with qi := ag.qi - 1, age := ag.age + 1 })
                  (fun b hb => hb.symm)]

end Harimu

namespace Harimu

def Action.isReproduce : Action → Bool
  | .reproduce _ => true
  | _ => false

lemma applyAction_exact (w : World) (req : ActionRequest)
    (intents : List (AgentId × AgentId)) (snap : List (AgentId × Position × Bool))
    (hnd : (w.agents.map (·.id)).Nodup)
    (hnorep : req.action.isReproduce = false) :
    ExactOk w (Vm.applyAction w req intents snap).1 := by
  simp only [Vm.applyAction]
  split
  · exact ExactOk_refl w
  · rename_i agent hfind0
    split
    · exact ExactOk_refl w
    · have hagid : agent.id = req.agentId := (agentById_mem hfind0).2
      have hfind : agentById w.agents agent.id = some agent := by
        rw [hagid]; exact hfind0
      split
      · exact applyMove_exact hnd hfind
      · exact applyScan_exact hnd hfind
      · rename_i partner hact
        rw [hact] at hnorep
        simp [Action.isReproduce] at hnorep
      · exact applyBuild_exact hnd hfind
      · exact applyHarvest_exact hnd hfind
      · exact applyIdle_exact hnd hfind

lemma processRequests_exact : ∀ (reqs : List ActionRequest) (w : World)
    (intents : List (AgentId × AgentId)) (snap : List (AgentId × Position × Bool)),
    (w.agents.map (·.id)).Nodup →
    (∀ r ∈ reqs, r.action.isReproduce = false) →
    ExactOk w (Vm.processRequests w reqs intents snap).1 := by
  intro reqs
  induction reqs with
  | nil =>
    intro w _ _ _ _
    exact ExactOk_refl w
  | cons req rest ih =>
    intro w intents snap hnd hnorep
    have h1 := applyAction_exact w req intents snap hnd
      (hnorep req (List.mem_cons_self _ _))
    have hnd2 : ((Vm.applyAction w req intents snap).1.agents.map (·.id)).Nodup := by
      rw [h1.2.1]; exact hnd
    have h2 := ih (Vm.applyAction w req intents snap).1 intents snap hnd2
      (fun r hr => hnorep r (List.mem_cons_of_mem _ hr))
    simp only [Vm.processRequests]
    split
    · exact ExactOk_trans h1 h2
    · exact ExactOk_trans h1 h2

lemma markAgentDead_exact (w : World) (i : AgentId) (r : DeathReason) :
    ExactOk w (Vm.markAgentDead w i r).1 := by
  simp only [Vm.markAgentDead]
  split
  · exact ExactOk_refl w
  · split
    · exact ExactOk_refl w
    · refine ⟨?_, updAgents_map_id (fun b _ => rfl), rfl⟩
      simp only [exactQiTotal]
      rw [agentsQiSum_updAgents_qi_const w.agents i
        (fun a => { a with alive := false }) (fun a => rfl)]

lemma enforceAgeList_exact : ∀ (l : List AgentId) (w : World),
    ExactOk w (enforceAgeList w l).1 := by
  intro l
  induction l with
  | nil => intro w; exact ExactOk_refl w
  | cons i rest ih =>
    intro w
    simp only [enforceAgeList]
    exact ExactOk_trans (markAgentDead_exact w i DeathReason.age) (ih _)

lemma enforceAgeLimits_exact (w : World) : ExactOk w (Vm.enforceAgeLimits w).1 := by
  simp only [Vm.enforceAgeLimits]
  exact enforceAgeList_exact _ w

end Harimu

namespace Harimu

/-- C2 (amended): once a cap is configured, a step whose request batch
contains no `Reproduce` action keeps the exact total Qi (agents + Qi-kind
sources + recycled pool), and hence the reported `total_qi_supply`, at or
below the cap; the cap setting itself survives the step. -/
theorem c2_cap_preserved_without_reproduce (w : World) (maxQ : Nat)
    (reqs : List ActionRequest)
    (hnd : (w.agents.map (·.id)).Nodup)
    (hmax : w.maxQiSupply = some maxQ) (hM : maxQ ≤ u64Max)
    (hcap : exactQiTotal w ≤ maxQ)
    (hnorep : ∀ r ∈ reqs, r.action.isReproduce = false) :
    exactQiTotal (Vm.step w reqs).1 ≤ maxQ ∧
    (Vm.step w reqs).1.totalQiSupply ≤ maxQ ∧
    (Vm.step w reqs).1.maxQiSupply = some maxQ := by
  have h1 : exactQiTotal w.rechargeQiSources ≤ maxQ :=
    rechargeQiSources_exact_le w maxQ hmax hM hcap
  have hnd1 : (w.rechargeQiSources.agents.map (·.id)).Nodup := by
    rw [rechargeQiSources_agents]
    exact hnd
  have h2 := processRequests_exact reqs w.rechargeQiSources (collectIntents reqs)
    (w.rechargeQiSources.agents.map (fun a => (a.id, a.position, a.alive))) hnd1
    hnorep
  have h3 := enforceAgeLimits_exact
    (Vm.processRequests w.rechargeQiSources reqs (collectIntents reqs)
      (w.rechargeQiSources.agents.map (fun a => (a.id, a.position, a.alive)))).1
  have hexact : exactQiTotal (Vm.step w reqs).1 =
      exactQiTotal (Vm.enforceAgeLimits
        (Vm.processRequests w.rechargeQiSources reqs (collectIntents reqs)
          (w.rechargeQiSources.agents.map
            (fun a => (a.id, a.position, a.alive)))).1).1 := rfl
  have hmaxeq : (Vm.step w reqs).1.maxQiSupply =
      (Vm.enforceAgeLimits
        (Vm.processRequests w.rechargeQiSources reqs (collectIntents reqs)
          (w.rechargeQiSources.agents.map
            (fun a => (a.id, a.position, a.alive)))).1).1.maxQiSupply := rfl
  have hle : exactQiTotal (Vm.step w reqs).1 ≤ maxQ := by
    rw [hexact]
    exact le_trans h3.1 (le_trans h2.1 h1)
  refine ⟨hle, ?_, ?_⟩
  · rw [totalQiSupply_eq]
    exact le_trans (min_le_left _ _) hle
  · rw [hmaxeq, h3.2.2, h2.2.2, rechargeQiSources_maxQiSupply, hmax]

def c2wWorld : World :=
  ((World.new.spawnAgent "Solo" 2 Position.origin).2).setMaxQiSupply 10

theorem c2_cap_preserved_without_reproduce_witness :
    ((c2wWorld.agents.map (·.id)).Nodup ∧ c2wWorld.maxQiSupply = some 10 ∧
      exactQiTotal c2wWorld ≤ 10) ∧
    exactQiTotal (Vm.step c2wWorld [⟨1, .idle⟩]).1 ≤ 10 ∧
    (Vm.step c2wWorld [⟨1, .idle⟩]).1.totalQiSupply ≤ 10 ∧
    (Vm.step c2wWorld [⟨1, .idle⟩]).1.maxQiSupply = some 10 :=
  ⟨⟨by decide, by decide, by decide⟩,
   c2_cap_preserved_without_reproduce c2wWorld 10 [⟨1, .idle⟩] (by decide)
     (by decide) (by decide) (by decide) (by decide)⟩

end Harimu

namespace Harimu

lemma filter_length_mono {α : Type} (l : List α) (pd q : α → Bool)
    (himp : ∀ x, q x = true → pd x = true) :
    (l.filter q).length ≤ (l.filter pd).length := by
  induction l with
  | nil => exact le_refl _
  | cons x xs ih =>
    simp only [List.filter_cons]
    cases hq : q x
    · cases hp : pd x
      · exact ih
      · simp only [List.length_cons]
        exact le_trans ih (Nat.le_succ _)
    · rw [himp x hq]
      simp only [List.length_cons]
      exact Nat.succ_le_succ ih

lemma filter_length_lt {α : Type} (l : List α) (pd q : α → Bool)
    (himp : ∀ x, q x = true → pd x = true) (e : α) (he : e ∈ l)
    (hpe : pd e = true) (hqe : q e = false) :
    (l.filter q).length < (l.filter pd).length := by
  induction l with
  | nil => simp at he
  | cons x xs ih =>
    simp only [List.filter_cons]
    rcases List.mem_cons.mp he with rfl | he'
    · rw [hpe, hqe]
      simp only [List.length_cons]
      exact Nat.lt_succ_of_le (filter_length_mono xs pd q himp)
    · cases hq : q x
      · cases hp : pd x
        · exact ih he'
        · simp only [List.length_cons]
          exact Nat.lt_succ_of_lt (ih he')
      · rw [himp x hq]
        simp only [List.length_cons]
        exact Nat.succ_lt_succ (ih he')

/-- The positions a `spawn` walk can still hit from `p`: same y/z, x ≥ p.x. -/
def onRay (p q : Position) : Bool :=
  decide (q.y = p.y ∧ q.z = p.z ∧ p.x ≤ q.x)

lemma occLookup_mem {occ : List (Position × AgentId)} {p : Position}
    {i : AgentId} (h : occLookup occ p = some i) : (p, i) ∈ occ := by
  unfold occLookup at h
  obtain ⟨e, hfe, he2⟩ := Option.map_eq_some'.mp h
  have hmem := List.mem_of_find?_eq_some hfe
  have hkey := List.find?_some hfe
  simp only [decide_eq_true_eq] at hkey
  have : e = (p, i) := by
    cases e
    simp only at he2 hkey
    rw [hkey, he2]
  rwa [this] at hmem

lemma findFreeAux_free : ∀ (fuel : Nat) (occ : List (Position × AgentId))
    (p : Position), (occ.filter (fun e => onRay p e.1)).length < fuel →
    occLookup occ (findFreeAux occ fuel p) = none := by
  intro fuel
  induction fuel with
  | zero => intro occ p h; omega
  | succ n ih =>
    intro occ p h
    simp only [findFreeAux]
    split
    · assumption
    · rename_i hocc
      apply ih
      cases hlk : occLookup occ p with
      | none => exact absurd hlk hocc
      | some i =>
        have hmem := occLookup_mem hlk
        refine lt_of_lt_of_le ?_ (Nat.lt_succ_iff.mp h)
        apply filter_length_lt occ (fun e => onRay p e.1)
          (fun e => onRay (p.offset 1 0 0) e.1) ?_ (p, i) hmem ?_ ?_
        · intro e hr
          simp only [onRay, Position.offset, decide_eq_true_eq] at hr ⊢
          omega
        · show onRay p p = true
          simp [onRay]
        · show onRay (p.offset 1 0 0) p = false
          simp only [onRay, Position.offset, decide_eq_false_iff_not]
          intro hc
          omega

lemma findFree_free (occ : List (Position × AgentId)) (p : Position) :
    occLookup occ (findFree occ p) = none := by
  apply findFreeAux_free
  exact Nat.lt_succ_of_le (List.length_filter_le _ _)

end Harimu

namespace Harimu

lemma occLookup_occRemove_ne {occ : List (Position × AgentId)} {p q : Position}
    (h : q ≠ p) : occLookup (occRemove occ p) q = occLookup occ q := by
  induction occ with
  | nil => rfl
  | cons e occ ih =>
    by_cases hep : e.1 = p
    · have hq : ¬ e.1 = q := fun hc => h (by rw [← hc, hep])
      simp only [occRemove, List.filter_cons]
      rw [if_neg (by simp [hep])]
      unfold occLookup
      rw [List.find?_cons_of_neg _ (by simpa using hq)]
      exact ih
    · simp only [occRemove, List.filter_cons]
      rw [if_pos (by simpa using hep)]
      by_cases heq : e.1 = q
      · unfold occLookup
        rw [List.find?_cons_of_pos _ (by simpa using heq),
          List.find?_cons_of_pos _ (by simpa using heq)]
      · unfold occLookup
        rw [List.find?_cons_of_neg _ (by simpa using heq),
          List.find?_cons_of_neg _ (by simpa using heq)]
        exact ih

lemma occLookup_occInsert_self (occ : List (Position × AgentId)) (p : Position)
    (i : AgentId) : occLookup (occInsert occ p i) p = some i := by
  unfold occInsert occLookup
  rw [List.find?_cons_of_pos _ (by simp)]
  rfl

lemma occLookup_occInsert_ne {occ : List (Position × AgentId)} {p q : Position}
    {i : AgentId} (h : q ≠ p) :
    occLookup (occInsert occ p i) q = occLookup occ q := by
  unfold occInsert
  show occLookup ((p, i) :: occRemove occ p) q = _
  unfold occLookup
  rw [List.find?_cons_of_neg _ (by simpa using fun hc => h hc.symm)]
  exact occLookup_occRemove_ne h

lemma occRemove_eq_of_none {occ : List (Position × AgentId)} {p : Position}
    (h : occLookup occ p = none) : occRemove occ p = occ := by
  unfold occRemove
  apply List.filter_eq_self.mpr
  intro e he
  simpa using occLookup_none_iff.mp h e he

lemma occRemove_keys_nodup {occ : List (Position × AgentId)} {p : Position}
    (h : (occ.map (·.1)).Nodup) : ((occRemove occ p).map (·.1)).Nodup :=
  List.Nodup.sublist (List.Sublist.map _ (List.filter_sublist _)) h

lemma occRemove_mem {occ : List (Position × AgentId)} {p : Position}
    {e : Position × AgentId} (h : e ∈ occRemove occ p) : e ∈ occ ∧ ¬ e.1 = p := by
  have := List.mem_filter.mp h
  simpa using this

lemma occLookup_of_mem {occ : List (Position × AgentId)}
    (hnd : (occ.map (·.1)).Nodup) {e : Position × AgentId} (he : e ∈ occ) :
    occLookup occ e.1 = some e.2 := by
  induction occ with
  | nil => simp at he
  | cons x occ ih =>
    rw [List.map_cons, List.nodup_cons] at hnd
    rcases List.mem_cons.mp he with rfl | he'
    · unfold occLookup
      rw [List.find?_cons_of_pos _ (by simp)]
      rfl
    · have hx : ¬ x.1 = e.1 := fun hc =>
        hnd.1 (List.mem_map.mpr ⟨e, he', hc.symm⟩)
      unfold occLookup
      rw [List.find?_cons_of_neg _ (by simpa using hx)]
      exact ih hnd.2 he'

lemma agentById_append_new {l : List Agent} {a : Agent}
    (h : ∀ b ∈ l, b.id ≠ a.id) : agentById (l ++ [a]) a.id = some a := by
  induction l with
  | nil =>
    unfold agentById
    rw [List.nil_append, List.find?_cons_of_pos _ (by simp)]
  | cons b t ih =>
    unfold agentById
    rw [List.cons_append,
      List.find?_cons_of_neg _ (by simpa using h b (List.mem_cons_self _ _))]
    exact ih (fun c hc => h c (List.mem_cons_of_mem _ hc))

/-- One occupancy entry is backed by a live agent standing at that cell. -/
def occEntryOk (agents : List Agent) (e : Position × AgentId) : Bool :=
  match agentById agents e.2 with
  | some a => a.alive && decide (a.position = e.1)
  | none => false

lemma occEntryOk_iff {agents : List Agent} {e : Position × AgentId} :
    occEntryOk agents e = true ↔
      ∃ a, agentById agents e.2 = some a ∧ a.alive = true ∧ a.position = e.1 := by
  unfold occEntryOk
  cases h : agentById agents e.2 with
  | none => simp
  | some a => simp [h]

/-- The occupancy/agents well-formedness of C5: ids are unique and below the
allocator, occupied cells are unique, every entry points at a live agent
standing there, and every live agent is indexed at its own position. -/
@[reducible] def occWF (agents : List Agent) (nid : AgentId)
    (occ : List (Position × AgentId)) : Prop :=
  (∀ a ∈ agents, a.id < nid) ∧
  (agents.map (·.id)).Nodup ∧
  ((occ.map (·.1)).Nodup) ∧
  (∀ e ∈ occ, occEntryOk agents e = true) ∧
  (∀ a ∈ agents, a.alive = true → occLookup occ a.position = some a.id)

@[reducible] def OccWF (w : World) : Prop := occWF w.agents w.nextAgentId w.occupied

lemma spawnAgentWithAge_occWF (w : World) (name : String) (qi : Nat)
    (position : Position) (maxAge : Nat) (h : OccWF w) :
    OccWF (w.spawnAgentWithAge name qi position maxAge).2 := by
  obtain ⟨hbound, hnd, hknd, hent, halo⟩ := h
  have hfree : occLookup w.occupied (findFree w.occupied position) = none :=
    findFree_free _ _
  have hrem : occRemove w.occupied (findFree w.occupied position) = w.occupied :=
    occRemove_eq_of_none hfree
  simp only [OccWF, World.spawnAgentWithAge, occWF]
  refine ⟨?_, ?_, ?_, ?_, ?_⟩
  · intro a ha
    rcases List.mem_append.mp ha with h1 | h2
    · exact Nat.lt_succ_of_lt (hbound a h1)
    · rw [List.mem_singleton.mp h2]
      exact Nat.lt_succ_self _
  · rw [List.map_append]
    refine List.Nodup.append hnd (List.nodup_singleton _) ?_
    intro x hx
    obtain ⟨b, hb, rfl⟩ := List.mem_map.mp hx
    simp only [List.map_cons, List.map_nil, List.mem_singleton]
    intro hxe
    exact absurd hxe (Nat.ne_of_lt (hbound b hb))
  · unfold occInsert
    rw [hrem, List.map_cons, List.nodup_cons]
    refine ⟨?_, hknd⟩
    intro hc
    obtain ⟨e, he, hke⟩ := List.mem_map.mp hc
    exact occLookup_none_iff.mp hfree e he hke
  · intro e he
    unfold occInsert at he
    rw [hrem] at he
    rcases List.mem_cons.mp he with rfl | he'
    · rw [occEntryOk_iff]
      refine ⟨_, agentById_append_new
        (fun b hb => Nat.ne_of_lt (hbound b hb)), rfl, rfl⟩
    · have hold := occEntryOk_iff.mp (hent e he')
      obtain ⟨a, hba, hal, hpa⟩ := hold
      exact occEntryOk_iff.mpr ⟨a, agentById_append_left hba, hal, hpa⟩
  · intro a ha halive
    rcases List.mem_append.mp ha with h1 | h2
    · have hl := halo a h1 halive
      have hne : a.position ≠ findFree w.occupied position := fun hc => by
        rw [hc, hfree] at hl
        exact Option.noConfusion hl
      rw [occLookup_occInsert_ne hne]
      exact hl
    · rw [List.mem_singleton.mp h2]
      exact occLookup_occInsert_self _ _ _

end Harimu

namespace Harimu

lemma occWF_updAgents {agents : List Agent} {nid : AgentId}
    {occ : List (Position × AgentId)} (key : AgentId) (f : Agent → Agent)
    (hidg : ∀ b : Agent, b.id = key → (f b).id = b.id)
    (hprops : ∀ a ∈ agents, a.id = key →
      (f a).alive = a.alive ∧ (f a).position = a.position)
    (h : occWF agents nid occ) : occWF (updAgents agents key f) nid occ := by
  obtain ⟨hbound, hnd, hknd, hent, halo⟩ := h
  refine ⟨?_, ?_, hknd, ?_, ?_⟩
  · exact forall_mem_updAgents hbound
      (fun a ha hai => by rw [hidg a hai]; exact hbound a ha)
  · rw [updAgents_map_id hidg]
    exact hnd
  · intro e he
    obtain ⟨a, hba, hal, hpa⟩ := occEntryOk_iff.mp (hent e he)
    apply occEntryOk_iff.mpr
    by_cases hek : e.2 = key
    · have hamem : a ∈ agents := (agentById_mem hba).1
      have haid : a.id = key := by rw [(agentById_mem hba).2, hek]
      refine ⟨f a, ?_, ?_, ?_⟩
      · rw [hek]
        exact agentById_updAgents_self (hek ▸ hba) (hidg a haid)
      · rw [(hprops a hamem haid).1]
        exact hal
      · rw [(hprops a hamem haid).2]
        exact hpa
    · refine ⟨a, ?_, hal, hpa⟩
      rw [agentById_updAgents_ne hek (fun b hb => by rw [hidg b hb]; exact hb)]
      exact hba
  · intro a' ha'
    obtain ⟨a, ha, rfl⟩ := List.mem_map.mp (by simpa [updAgents] using ha')
    by_cases hak : a.id = key
    · rw [if_pos hak]
      intro hal'
      have hp := hprops a ha hak
      rw [hp.2, hidg a hak]
      apply halo a ha
      rw [← hp.1]
      exact hal'
    · rw [if_neg hak]
      exact halo a ha

lemma markAgentDead_occWF (w : World) (d : AgentId) (reason : DeathReason)
    (h : OccWF w) : OccWF (Vm.markAgentDead w d reason).1 := by
  obtain ⟨hbound, hnd, hknd, hent, halo⟩ := h
  simp only [Vm.markAgentDead]
  split
  · exact ⟨hbound, hnd, hknd, hent, halo⟩
  · rename_i agent hfind
    split
    · exact ⟨hbound, hnd, hknd, hent, halo⟩
    · rename_i halive0
      have halive : agent.alive = true := by
        revert halive0
        cases agent.alive <;> simp
      have hagid : agent.id = d := (agentById_mem hfind).2
      have hamem : agent ∈ w.agents := (agentById_mem hfind).1
      show occWF (updAgents w.agents d (fun a => { a with alive := false }))
        w.nextAgentId (occRemove w.occupied agent.position)
      refine ⟨?_, ?_, occRemove_keys_nodup hknd, ?_, ?_⟩
      · exact forall_mem_updAgents hbound (fun a ha _ => hbound a ha)
      · rw [@updAgents_map_id w.agents d (fun a => { a with alive := false })
          (fun b _ => rfl)]
        exact hnd
      · intro e he
        obtain ⟨he', hep⟩ := occRemove_mem he
        obtain ⟨a, hba, hal, hpa⟩ := occEntryOk_iff.mp (hent e he')
        by_cases hed : e.2 = d
        · exfalso
          rw [hed, hfind] at hba
          have hae : agent = a := Option.some_injective _ hba
          exact hep (by rw [← hpa, ← hae])
        · apply occEntryOk_iff.mpr
          refine ⟨a, ?_, hal, hpa⟩
          rw [@agentById_updAgents_ne w.agents d e.2
            (fun a => { a with alive := false }) hed (fun b hb => hb)]
          exact hba
      · intro a' ha'
        obtain ⟨a, ha, rfl⟩ := List.mem_map.mp (by simpa [updAgents] using ha')
        by_cases hak : a.id = d
        · rw [if_pos hak]
          intro hfalse
          simp at hfalse
        · rw [if_neg hak]
          intro hal
          have hl := halo a ha hal
          have hne : a.position ≠ agent.position := by
            intro hc
            rw [hc] at hl
            have hl2 := halo agent hamem halive
            rw [hl2] at hl
            exact hak (((Option.some_injective _ hl).symm).trans hagid)
          rw [occLookup_occRemove_ne hne]
          exact hl

lemma enforceAgeList_occWF : ∀ (l : List AgentId) (w : World),
    OccWF w → OccWF (enforceAgeList w l).1 := by
  intro l
  induction l with
  | nil => intro w h; exact h
  | cons i rest ih =>
    intro w h
    simp only [enforceAgeList]
    exact ih _ (markAgentDead_occWF w i DeathReason.age h)

lemma enforceAgeLimits_occWF (w : World) (h : OccWF w) :
    OccWF (Vm.enforceAgeLimits w).1 := by
  simp only [Vm.enforceAgeLimits]
  exact enforceAgeList_occWF _ w h

end Harimu

namespace Harimu

lemma applyMove_occWF {w : World} {ag : Agent} {dx dy dz : Int}
    (hfind : agentById w.agents ag.id = some ag) (halive : ag.alive = true)
    (h : OccWF w) : OccWF (Vm.applyMove w ag dx dy dz).1 := by
  obtain ⟨hbound, hnd, hknd, hent, halo⟩ := h
  have hamem : ag ∈ w.agents := (agentById_mem hfind).1
  simp only [Vm.applyMove]
  split
  · exact ⟨hbound, hnd, hknd, hent, halo⟩
  · split
    · exact ⟨hbound, hnd, hknd, hent, halo⟩
    · rename_i hblk
      -- the blocker analysis: the target cell is free or holds the mover
      have hto : occLookup w.occupied (ag.position.offset dx dy dz) = none ∨
          occLookup w.occupied (ag.position.offset dx dy dz) = some ag.id := by
        cases hlk : occLookup w.occupied (ag.position.offset dx dy dz) with
        | none => exact Or.inl rfl
        | some other =>
          rw [hlk] at hblk
          dsimp only at hblk
          by_cases hoe : other = ag.id
          · exact Or.inr (by rw [hoe])
          · rw [if_neg hoe] at hblk
            exact absurd hblk (by simp)
      split
      · -- insufficient Qi: only discovered_zones change
        show occWF _ _ _
        refine occWF_updAgents ag.id _ ?_ ?_ ⟨hbound, hnd, hknd, hent, halo⟩
        · exact fun b _ => rfl
        · exact fun a _ _ => ⟨rfl, rfl⟩
      · -- the successful move
        show occWF _ _ _
        dsimp only [World.recycleQi]
        set to_ := ag.position.offset dx dy dz with hto_
        set agn : Agent := { ag with
          qi := ag.qi - 1
          position := to_
          age := ag.age + 1
          discoveredZones :=
            (if ag.position.zone ≠ to_.zone ∧ ¬ to_.zone ∈ ag.discoveredZones then
              to_.zone :: ag.discoveredZones
            else ag.discoveredZones) } with hagn
        have hfrom := halo ag hamem halive
        refine ⟨?_, ?_, ?_, ?_, ?_⟩
        · exact forall_mem_updAgents hbound (fun a ha hai => by
            show ag.id < w.nextAgentId
            exact hbound ag hamem)
        · rw [@updAgents_map_id w.agents ag.id (fun _a => agn)
            (fun b hb => hb.symm)]
          exact hnd
        · show ((occInsert (occRemove w.occupied ag.position) to_ ag.id).map
            (·.1)).Nodup
          unfold occInsert
          rw [List.map_cons, List.nodup_cons]
          refine ⟨?_, occRemove_keys_nodup (occRemove_keys_nodup hknd)⟩
          intro hc
          obtain ⟨e, he, hke⟩ := List.mem_map.mp hc
          exact occLookup_none_iff.mp (occRemove_self _ _) e he hke
        · intro e he
          unfold occInsert at he
          rcases List.mem_cons.mp he with rfl | he'
          · apply occEntryOk_iff.mpr
            refine ⟨agn, agentById_updAgents_self hfind rfl, ?_, rfl⟩
            show ag.alive = true
            exact halive
          · obtain ⟨he2, hne_to⟩ := occRemove_mem he'
            obtain ⟨he3, hne_from⟩ := occRemove_mem he2
            obtain ⟨a, hba, hal, hpa⟩ := occEntryOk_iff.mp (hent e he3)
            have hek : ¬ e.2 = ag.id := by
              intro hc
              rw [hc, hfind] at hba
              have : ag = a := Option.some_injective _ hba
              exact hne_from (by rw [← hpa, ← this])
            apply occEntryOk_iff.mpr
            refine ⟨a, ?_, hal, hpa⟩
            rw [@agentById_updAgents_ne w.agents ag.id e.2 (fun _a => agn) hek
              (fun b _ => rfl)]
            exact hba
        · intro a' ha'
          obtain ⟨a, ha, rfl⟩ := List.mem_map.mp (by simpa [updAgents] using ha')
          by_cases hak : a.id = ag.id
          · rw [if_pos hak]
            intro _
            have hae : a = ag := nodup_id_unique hnd ha hamem hak
            show occLookup (occInsert (occRemove w.occupied ag.position) to_ ag.id)
              agn.position = some agn.id
            have : agn.position = to_ := rfl
            rw [this]
            exact occLookup_occInsert_self _ _ _
          · rw [if_neg hak]
            intro hal
            have hl := halo a ha hal
            have hne_from : a.position ≠ ag.position := by
              intro hc
              rw [hc, hfrom] at hl
              exact hak (Option.some_injective _ hl).symm
            have hne_to : a.position ≠ to_ := by
              intro hc
              rw [hc] at hl
              rcases hto with h1 | h1
              · rw [h1] at hl
                exact Option.noConfusion hl
              · rw [h1] at hl
                exact hak (Option.some_injective _ hl).symm
            rw [occLookup_occInsert_ne hne_to, occLookup_occRemove_ne hne_from]
            exact hl

end Harimu

namespace Harimu

lemma applyScan_occWF {w : World} {ag : Agent}
    (hfind : agentById w.agents ag.id = some ag) (h : OccWF w) :
    OccWF (Vm.applyScan w ag).1 := by
  have hamem := (agentById_mem hfind).1
  show occWF _ _ _
  refine occWF_updAgents ag.id _ ?_ ?_ h
  · exact fun b hb => hb.symm
  · intro a ha hak
    have hae : a = ag := nodup_id_unique h.2.1 ha hamem hak
    subst hae
    exact ⟨rfl, rfl⟩

lemma applyIdle_occWF {w : World} {ag : Agent}
    (hfind : agentById w.agents ag.id = some ag) (h : OccWF w) :
    OccWF (Vm.applyIdle w ag).1 := by
  have hamem := (agentById_mem hfind).1
  show occWF _ _ _
  refine occWF_updAgents ag.id _ ?_ ?_ h
  · exact fun b hb => hb.symm
  · intro a ha hak
    have hae : a = ag := nodup_id_unique h.2.1 ha hamem hak
    subst hae
    exact ⟨rfl, rfl⟩

lemma applyReproduce_occWF {w : World} {ag : Agent} {partner : AgentId}
    {intents : List (AgentId × AgentId)} {snap : List (AgentId × Position × Bool)}
    (hfind : agentById w.agents ag.id = some ag) (h : OccWF w) :
    OccWF (Vm.applyReproduce w ag partner intents snap).1 := by
  have hamem := (agentById_mem hfind).1
  simp only [Vm.applyReproduce]
  split
  · exact h
  · split
    · exact h
    · split
      · exact h
      · split
        · exact h
        · split
          · exact h
          · have h1 : occWF (updAgents w.agents ag.id
                (fun _a => { ag with qi := ag.qi - 1, age := ag.age + 1 }))
                w.nextAgentId w.occupied := by
              refine occWF_updAgents ag.id _ ?_ ?_ h
              · exact fun b hb => hb.symm
              · intro a ha hak
                have hae : a = ag := nodup_id_unique h.2.1 ha hamem hak
                subst hae
                exact ⟨rfl, rfl⟩
            exact spawnAgentWithAge_occWF _ _ _ _ _ h1

lemma applyBuild_occWF {w : World} {ag : Agent} {kind : StructureKind}
    (hfind : agentById w.agents ag.id = some ag) (h : OccWF w) :
    OccWF (Vm.applyBuild w ag kind).1 := by
  have hamem := (agentById_mem hfind).1
  simp only [Vm.applyBuild]
  split
  · exact h
  · split
    · exact h
    · split
      · show occWF _ _ _
        refine occWF_updAgents ag.id _ ?_ ?_ h
        · exact fun b hb => by split <;> exact hb.symm
        · intro a ha hak
          have hae : a = ag := nodup_id_unique h.2.1 ha hamem hak
          subst hae
          exact ⟨by split <;> rfl, by split <;> rfl⟩
      · simp only [Action.qiCost, gt_iff_lt, zero_lt_one, if_true]
        show occWF _ _ _
        refine occWF_updAgents ag.id _ ?_ ?_ h
        · exact fun b hb => by split <;> exact hb.symm
        · intro a ha hak
          have hae : a = ag := nodup_id_unique h.2.1 ha hamem hak
          subst hae
          exact ⟨by split <;> rfl, by split <;> rfl⟩

lemma applyHarvest_occWF {w : World} {ag : Agent} {ore : OreKind} {sid : Nat}
    (hfind : agentById w.agents ag.id = some ag) (h : OccWF w) :
    OccWF (Vm.applyHarvest w ag ore sid).1 := by
  have hamem := (agentById_mem hfind).1
  have h1 : occWF (updAgents w.agents ag.id
      (fun _a => { ag with qi := ag.qi - 1, age := ag.age + 1 }))
      w.nextAgentId w.occupied := by
    refine occWF_updAgents ag.id _ ?_ ?_ h
    · exact fun b hb => hb.symm
    · intro a ha hak
      have hae : a = ag := nodup_id_unique h.2.1 ha hamem hak
      subst hae
      exact ⟨rfl, rfl⟩
  simp only [Vm.applyHarvest]
  split
  · exact h
  · split
    · exact h
    · split
      · exact h
      · split
        · exact h
        · split
          · exact h1
          · show occWF _ _ _
            refine occWF_updAgents ag.id _ ?_ ?_ h1
            · exact fun b _ => gainOre_id b ore _
            · exact fun a _ _ => ⟨gainOre_alive a ore _, gainOre_position a ore _⟩

lemma applyAction_occWF (w : World) (req : ActionRequest)
    (intents : List (AgentId × AgentId)) (snap : List (AgentId × Position × Bool))
    (h : OccWF w) : OccWF (Vm.applyAction w req intents snap).1 := by
  simp only [Vm.applyAction]
  split
  · exact h
  · rename_i agent hfind0
    split
    · exact h
    · rename_i halive0
      have halive : agent.alive = true := by
        revert halive0
        cases agent.alive <;> simp
      have hagid : agent.id = req.agentId := (agentById_mem hfind0).2
      have hfind : agentById w.agents agent.id = some agent := by
        rw [hagid]; exact hfind0
      split
      · exact applyMove_occWF hfind halive h
      · exact applyScan_occWF hfind h
      · exact applyReproduce_occWF hfind h
      · exact applyBuild_occWF hfind h
      · exact applyHarvest_occWF hfind h
      · exact applyIdle_occWF hfind h

lemma processRequests_occWF : ∀ (reqs : List ActionRequest) (w : World)
    (intents : List (AgentId × AgentId)) (snap : List (AgentId × Position × Bool)),
    OccWF w → OccWF (Vm.processRequests w reqs intents snap).1 := by
  intro reqs
  induction reqs with
  | nil => intro w _ _ h; exact h
  | cons req rest ih =>
    intro w intents snap h
    have h1 := applyAction_occWF w req intents snap h
    simp only [Vm.processRequests]
    split
    · exact ih _ intents snap h1
    · exact ih _ intents snap h1

end Harimu

namespace Harimu

/-- C5: `spawn_agent` / `spawn_agent_with_age` and `Vm::step` preserve the
occupancy invariant: occupied cells are unique and point at live agents
standing exactly there, every live agent is indexed at its own position —
and hence no two live agents ever share a position. -/
theorem c5_occupancy_invariant (w : World) (reqs : List ActionRequest)
    (name : String) (qi : Nat) (pos : Position) (maxAge : Nat)
    (h : OccWF w) :
    OccWF (w.spawnAgent name qi pos).2 ∧
    OccWF (w.spawnAgentWithAge name qi pos maxAge).2 ∧
    OccWF (Vm.step w reqs).1 ∧
    (∀ a ∈ (Vm.step w reqs).1.agents, ∀ b ∈ (Vm.step w reqs).1.agents,
      a.alive = true → b.alive = true → a.position = b.position → a = b) := by
  have hspawn2 := spawnAgentWithAge_occWF w name qi pos maxAge h
  have hspawn1 : OccWF (w.spawnAgent name qi pos).2 :=
    spawnAgentWithAge_occWF w name qi pos DEFAULT_MAX_AGENT_AGE h
  have hstep : OccWF (Vm.step w reqs).1 := by
    have h1 : OccWF w.rechargeQiSources := h
    have h2 := processRequests_occWF reqs w.rechargeQiSources (collectIntents reqs)
      (w.rechargeQiSources.agents.map (fun a => (a.id, a.position, a.alive))) h1
    exact enforceAgeLimits_occWF _ h2
  refine ⟨hspawn1, hspawn2, hstep, ?_⟩
  intro a ha b hb hal hbl hpos
  obtain ⟨_, hnd, _, _, halo⟩ := hstep
  have h1 := halo a ha hal
  have h2 := halo b hb hbl
  rw [hpos, h2] at h1
  exact nodup_id_unique hnd ha hb (Option.some_injective _ h1).symm

def c5wWorld : World := (World.new.spawnAgent "Walker" 2 Position.origin).2

theorem c5_occupancy_invariant_witness :
    OccWF c5wWorld ∧
    OccWF (c5wWorld.spawnAgent "Kid" 1 Position.origin).2 ∧
    OccWF (c5wWorld.spawnAgentWithAge "Elder" 1 Position.origin 5).2 ∧
    OccWF (Vm.step c5wWorld [⟨1, .move 1 0 0⟩]).1 ∧
    (∀ a ∈ (Vm.step c5wWorld [⟨1, .move 1 0 0⟩]).1.agents,
      ∀ b ∈ (Vm.step c5wWorld [⟨1, .move 1 0 0⟩]).1.agents,
      a.alive = true → b.alive = true → a.position = b.position → a = b) :=
  ⟨by decide,
   (c5_occupancy_invariant c5wWorld [⟨1, .move 1 0 0⟩] "Kid" 1 Position.origin 5
     (by decide)).1,
   (c5_occupancy_invariant c5wWorld [⟨1, .move 1 0 0⟩] "Elder" 1 Position.origin 5
     (by decide)).2.1,
   (c5_occupancy_invariant c5wWorld [⟨1, .move 1 0 0⟩] "Elder" 1 Position.origin 5
     (by decide)).2.2.1,
   (c5_occupancy_invariant c5wWorld [⟨1, .move 1 0 0⟩] "Elder" 1 Position.origin 5
     (by decide)).2.2.2⟩

end Harimu
